import Mathlib

set_option maxHeartbeats 1600000

/-!
# Shallow embedding of the lace-lang compiler / VM pair

Lean models of the Rust sources of the repository, one namespace per
generation of the design:

* `Lace`  — the `lacec` compiler (`lacec/src/common.rs`,
  `lacec/src/lace/lacec.rs`) and its virtual machine (`lace/src/vm.rs`);
* `Hlvm`  — the HIR→LIR lowering and VM (`hlvm/src/hir.rs`,
  `hlvm/src/lir.rs`, `hlvm/src/vm.rs`);
* `Svm`   — the `src/` generation (`src/vm/arithmetic.rs`,
  `src/vm/common.rs`, `src/vm/mod.rs`, `src/opcode.rs`, `src/vm/opcode.rs`).

Modelling conventions, used consistently below:

* machine integers (`i32`, `i64`, `i8`, `usize`) are `Int` together with
  explicit range predicates and wrap-around functions (`wrap32`,
  `usizeOfInt`, …); Rust `as` casts are spelled out;
* `f32`/`f64` payloads are carried as `Rat`.  Floating point rounding is
  not modelled; no theorem below depends on a float-valued code path,
  floats only ride along so that the value unions have the same variants
  as the source;
* Rust code that can panic (slice indexing, `unwrap`, arithmetic in a
  `_ => panic!()` arm, …) is modelled with `Option` / a dedicated `panic`
  outcome; `raise`-style fatal runtime errors (which print and `exit`)
  are a dedicated error outcome carrying the formatted message;
* `HashMap<String, V>` is an association list with prepend-on-insert and
  first-match lookup, which is observationally the map the source uses;
* the VM states carry two ghost fields used only by the theorems
  (`trace`, the indices of the executed instructions, and `output`, the
  arguments of executed primitive/macro print calls).  No modelled
  instruction reads them.
-/

/-- Two's-complement wrap-around to `i32`, the release-profile semantics of
Rust `i32` arithmetic (debug builds panic instead; all theorems below stay
in ranges where the two agree and `wrap32` is the identity). -/
def wrap32 (n : Int) : Int := (n + 2 ^ 31) % 2 ^ 32 - 2 ^ 31

/-- `n` is representable as an `i32`. -/
def inI32 (n : Int) : Prop := -(2 ^ 31) ≤ n ∧ n < 2 ^ 31

instance (n : Int) : Decidable (inI32 n) := by unfold inI32; infer_instance

/-- `n` is representable as an `i64`. -/
def inI64 (n : Int) : Prop := -(2 ^ 63) ≤ n ∧ n < 2 ^ 63

instance (n : Int) : Decidable (inI64 n) := by unfold inI64; infer_instance

/-- Rust `as usize` on a (64-bit platform) signed integer: reduction
mod `2^64`, e.g. `-1 as usize = 2^64 - 1`. -/
def usizeOfInt (n : Int) : Nat := (n % 2 ^ 64).toNat

/-- Rust `as u32` on a signed integer: reduction mod `2^32`. -/
def u32OfInt (n : Int) : Nat := (n % 2 ^ 32).toNat

/-- `String::repeat`: `n` concatenated copies. -/
def strRepeat (s : String) : Nat → String
  | 0 => ""
  | n + 1 => s ++ strRepeat s n

/-- Pop `n` values off a stack (head = top), returning them in pop order
(head of the first component was the top of the stack); `Option.none` is a
pop on an empty stack (panic). -/
def popN {α : Type} : Nat → List α → Option (List α × List α)
  | 0, stack => some ([], stack)
  | n + 1, v :: stack => (popN n stack).map fun p => (v :: p.1, p.2)
  | _ + 1, [] => Option.none

namespace Lace

/-- `lacec/src/common.rs`, `enum Instruction`. -/
inductive Instruction where
  | loadConstant (idx : Nat)
  | loadVariable (idx : Nat)
  | assignVariable (idx : Nat)
  | callFunction (len : Nat)
  | callPrimitiveFunction (len : Nat) (nameIdx : Nat)
  | ret
  | retNone
  | logicalNot
  | negate
  | typeofOp
  | add
  | sub
  | mul
  | div
  | mod
  | pow
  | leftShift
  | rightShift
  | binaryOr
  | binaryAnd
  | more
  | less
  | moreEq
  | lessEq
  | eq
  | unEq
  | jump (idx : Nat)
  | jumpT (idx : Nat)
  | jumpF (idx : Nat)
  deriving DecidableEq, Repr

mutual
/-- The enum `Value` of `lacec/src/common.rs`.  `Number` is `i32`, `Float`
is `f32`, `Byte` is `i8`.  The two "private" variants that carry parser
nodes (`NodeArray`, `NodeFunction`) are omitted: the compiler lowers
`NodeArray` to nothing and no claim concerns them; every function below
treats its remaining "private" variant (`Identifier`) exactly as the
source does (a panic wherever the source panics on private variants). -/
inductive Value where
  | number (n : Int)
  | float (q : Rat)
  | string (s : String)
  | formattedString (s : String)
  | byte (b : Int)
  | array (xs : ValueList)
  | function (code : List Instruction) (parameters : List String) (coroutine : Bool)
  | true
  | false
  | none
  | identifier (s : String)
  deriving DecidableEq
inductive ValueList where
  | nil
  | cons (v : Value) (t : ValueList)
  deriving DecidableEq
end

def ValueList.length : ValueList → Nat
  | .nil => 0
  | .cons _ t => t.length + 1

/-- `common.rs` helper `bool2value`. -/
def bool2value (rbool : Bool) : Value := if rbool then Value.true else Value.false

/-- `Value::istruthy` (`common.rs` lines 115–129).  `none` is the
`_ => panic!("istruthy on private variant")` arm.  Note the source uses
strict positivity (`> 0`) for numbers, floats and bytes. -/
def Value.istruthy : Value → Option Bool
  | .string s => some (decide (0 < s.length))
  | .formattedString s => some (decide (0 < s.length))
  | .function code _ _ => some (decide (0 < code.length))
  | .byte b => some (decide (0 < b))
  | .number n => some (decide (0 < n))
  | .float q => some (decide (0 < q))
  | .true => some Bool.true
  | .false => some Bool.false
  | .array l => some (decide (0 < l.length))
  | .none => some Bool.false
  | .identifier _ => Option.none

/-- `impl ExtractValue<String> for Value` (`common.rs` lines 133–140):
extracts an identifier, panics otherwise. -/
def Value.extract : Value → Option String
  | .identifier s => some s
  | _ => Option.none

/-! `impl Operations for Value` (`common.rs` lines 162–335).  Each method
returns `Option Value`; `Option.none` models the `_ => panic!()` arms and
the panicking integer operations (`/` and `%` by zero or at `MIN / -1`,
which panic in every build profile).  Plain `i32` `+`, `-`, `*`, the
shifts and `pow` wrap via `wrap32` (release profile).  The mixed
`Float`/`Number` arms perform the source's `as f32` cast followed by the
float operation; they are carried on `Rat` and no theorem uses them. -/

def Value.add : Value → Value → Option Value
  | .number a, .number b => some (.number (wrap32 (a + b)))
  | .float a, .number b => some (.float (a + b))
  | .number a, .float b => some (.float (a + b))
  | .float a, .float b => some (.float (a + b))
  | .string s, .string s2 => some (.string (s ++ s2))
  | _, _ => Option.none

def Value.sub : Value → Value → Option Value
  | .number a, .number b => some (.number (wrap32 (a - b)))
  | .float a, .number b => some (.float (a - b))
  | .number a, .float b => some (.float (a - b))
  | .float a, .float b => some (.float (a - b))
  | _, _ => Option.none

def Value.mul : Value → Value → Option Value
  | .number a, .number b => some (.number (wrap32 (a * b)))
  | .float a, .number b => some (.float (a * b))
  | .number a, .float b => some (.float (a * b))
  | .float a, .float b => some (.float (a * b))
  | .string s, .number num => some (.string (strRepeat s (usizeOfInt num)))
  | _, _ => Option.none

def Value.div : Value → Value → Option Value
  | .number a, .number b =>
      if b = 0 ∨ (a = -(2 ^ 31) ∧ b = -1) then Option.none
      else some (.number (Int.tdiv a b))
  | .float a, .number b => some (.float (a / b))
  | .number a, .float b => some (.float (a / b))
  | .float a, .float b => some (.float (a / b))
  | _, _ => Option.none

def Value.rem : Value → Value → Option Value
  | .number a, .number b =>
      if b = 0 ∨ (a = -(2 ^ 31) ∧ b = -1) then Option.none
      else some (.number (Int.tmod a b))
  | .float a, .number b => some (.float (a - b * (a / b).floor))
  | .number a, .float b => some (.float ((a : Rat) - b * ((a : Rat) / b).floor))
  | .float a, .float b => some (.float (a - b * (a / b).floor))
  | _, _ => Option.none

def Value.pow : Value → Value → Option Value
  | .number a, .number b => some (.number (wrap32 (a ^ u32OfInt b)))
  | .float a, .number b => some (.float (a ^ b.toNat))
  | .number a, .float b => some (.float ((a : Rat) ^ b.num.toNat))
  | .float a, .float b => some (.float (a ^ b.num.toNat))
  | _, _ => Option.none

def Value.eq (a b : Value) : Option Value := some (bool2value (decide (a = b)))

def Value.ne (a b : Value) : Option Value := some (bool2value (decide (a ≠ b)))

def Value.gt : Value → Value → Option Value
  | .number a, .number b => some (bool2value (decide (a > b)))
  | .float a, .number b => some (bool2value (decide (a > (b : Rat))))
  | .number a, .float b => some (bool2value (decide ((a : Rat) > b)))
  | .float a, .float b => some (bool2value (decide (a > b)))
  | _, _ => Option.none

def Value.st : Value → Value → Option Value
  | .number a, .number b => some (bool2value (decide (a < b)))
  | .float a, .number b => some (bool2value (decide (a < (b : Rat))))
  | .number a, .float b => some (bool2value (decide ((a : Rat) < b)))
  | .float a, .float b => some (bool2value (decide (a < b)))
  | _, _ => Option.none

def Value.ge : Value → Value → Option Value
  | .number a, .number b => some (bool2value (decide (a ≥ b)))
  | .float a, .number b => some (bool2value (decide (a ≥ (b : Rat))))
  | .number a, .float b => some (bool2value (decide ((a : Rat) ≥ b)))
  | .float a, .float b => some (bool2value (decide (a ≥ b)))
  | _, _ => Option.none

def Value.se : Value → Value → Option Value
  | .number a, .number b => some (bool2value (decide (a ≤ b)))
  | .float a, .number b => some (bool2value (decide (a ≤ (b : Rat))))
  | .number a, .float b => some (bool2value (decide ((a : Rat) ≤ b)))
  | .float a, .float b => some (bool2value (decide (a ≤ b)))
  | _, _ => Option.none

def Value.lsh : Value → Value → Option Value
  | .number a, .number b => some (.number (wrap32 (a * 2 ^ ((b % 32).toNat))))
  | _, _ => Option.none

def Value.rsh : Value → Value → Option Value
  | .number a, .number b => some (.number (Int.fdiv a (2 ^ ((b % 32).toNat))))
  | _, _ => Option.none

def Value.negate : Value → Option Value
  | .number a => some (.number (wrap32 (-a)))
  | .float a => some (.float (-a))
  | _ => Option.none

/-- `fn not`: `bool2value(!self.istruthy())`. -/
def Value.not (v : Value) : Option Value :=
  (v.istruthy).map fun b => bool2value (!b)

/-- `fn tpyeof` (source spelling). -/
def Value.tpyeof : Value → Option Value
  | .string _ => some (.string "string")
  | .formattedString _ => some (.string "string")
  | .function _ _ _ => some (.string "function")
  | .byte _ => some (.string "byte")
  | .number _ => some (.string "number")
  | .float _ => some (.string "float")
  | .true => some (.string "bool")
  | .false => some (.string "bool")
  | .array _ => some (.string "array")
  | .none => some (.string "none")
  | .identifier _ => Option.none

/-- `lacec/src/common.rs`, `enum UnaryOp`. -/
inductive UnaryOp where
  | typeofOp
  | negate
  | logicalNot
  deriving DecidableEq

/-- The binary-operator subset of the scanner's `Token` enum
(`lacec/src/scanner.rs`) — exactly the tokens matched by
`compile_expression`'s `Node::Binary` arm.  The scanner has further
(non-operator) tokens; the parser never places one of those in a
`Binary` node, so the arm's `_ => panic!()` is unreachable and the model
restricts the type instead. -/
inductive Token where
  | opAdd
  | opSub
  | opMul
  | opDiv
  | opMod
  | opPow
  | opBangEq
  | opEq
  | opLessEq
  | opMoreEq
  | opLeftShift
  | opRightShift
  | opLess
  | opMore
  | kwAnd
  | kwOr
  deriving DecidableEq

mutual
/-- The parser's `Node` enum (`lacec/src/common.rs` lines 42–87).
`FnParam`s are reduced to their names — the only field the compiler
reads; the metadata fields `public`, `annotation` and `return_annotation`
(never read by the compiler) are dropped. -/
inductive Node where
  | value (v : Value)
  | unary (n : Node) (operation : UnaryOp)
  | ret (n : Node)
  | retNone
  | function (name : String) (params : List String) (body : NodeList) (coroutine : Bool)
  | functionCall (name : String) (args : NodeList)
  | primitiveFunctionCall (name : String) (args : NodeList)
  | whileLoop (cond : Node) (body : NodeList)
  | binary (left : Node) (right : Node) (operator : Token)
  | variableDeclr (name : String) (v : Node)
  | variableAssignment (name : String) (v : Node)
inductive NodeList where
  | nil
  | cons (n : Node) (t : NodeList)
end

def NodeList.length : NodeList → Nat
  | .nil => 0
  | .cons _ t => t.length + 1

/-- `Vec::iter().position(|x| x.clone() == value)`:
first index holding a value structurally equal to `v`. -/
def position : List Value → Value → Option Nat
  | [], _ => Option.none
  | x :: xs, v =>
      if x = v then some 0
      else (position xs v).map (· + 1)

/-- `Constants::add_constant` (`lacec/src/lace/lacec.rs` lines 9–17):
returns the index of an already-present structurally equal value, else
appends.  The mutated pool is returned alongside the index. -/
def addConstant (pool : List Value) (value : Value) : Nat × List Value :=
  match position pool value with
  | some index => (index, pool)
  | Option.none => (pool.length, pool ++ [value])

/-- The opcode emitted for a `UnaryOp` (`compile_expression`, `Node::Unary`). -/
def unaryInstr : UnaryOp → Instruction
  | .logicalNot => .logicalNot
  | .negate => .negate
  | .typeofOp => .typeofOp

/-- The opcode emitted for a binary operator token
(`compile_expression`, `Node::Binary`). -/
def binInstr : Token → Instruction
  | .opAdd => .add
  | .opSub => .sub
  | .opMul => .mul
  | .opDiv => .div
  | .opMod => .mod
  | .opPow => .pow
  | .opBangEq => .unEq
  | .opEq => .eq
  | .opLessEq => .lessEq
  | .opMoreEq => .moreEq
  | .opLeftShift => .leftShift
  | .opRightShift => .rightShift
  | .opLess => .less
  | .opMore => .more
  | .kwAnd => .binaryAnd
  | .kwOr => .binaryOr

mutual
/-- `Compiler::compile_expression` (`lacec.rs` lines 33–110).  The
compiler state is the constants pool; the chunk is threaded alongside.
`Option.none` models the `_ => panic!()` arm (a statement node in
expression position). -/
def compileExpression (consts : List Value) (chunk : List Instruction) :
    Node → Option (List Value × List Instruction)
  | .value v =>
      match v with
      | .identifier s =>
          let p := addConstant consts (.identifier s)
          some (p.2, chunk ++ [.loadVariable p.1])
      | v =>
          let p := addConstant consts v
          some (p.2, chunk ++ [.loadConstant p.1])
  | .unary n operation =>
      match compileExpression consts chunk n with
      | some (c1, ch1) => some (c1, ch1 ++ [unaryInstr operation])
      | Option.none => Option.none
  | .binary left right operator =>
      match compileExpression consts chunk left with
      | some (c1, ch1) =>
          match compileExpression c1 ch1 right with
          | some (c2, ch2) => some (c2, ch2 ++ [binInstr operator])
          | Option.none => Option.none
      | Option.none => Option.none
  | .functionCall name args =>
      let len := args.length
      let p := addConstant consts (.identifier name)
      match compileArguments p.2 chunk args with
      | some (c2, ch2) =>
          some (c2, ch2 ++ [.loadVariable p.1, .callFunction len])
      | Option.none => Option.none
  | .primitiveFunctionCall name args =>
      let len := args.length
      let p := addConstant consts (.identifier name)
      match compileArguments p.2 chunk args with
      | some (c2, ch2) => some (c2, ch2 ++ [.callPrimitiveFunction len p.1])
      | Option.none => Option.none
  | _ => Option.none

/-- The `for argument in arguments { self.compile_expression(...) }` loops
inside the two call arms. -/
def compileArguments (consts : List Value) (chunk : List Instruction) :
    NodeList → Option (List Value × List Instruction)
  | .nil => some (consts, chunk)
  | .cons n t =>
      match compileExpression consts chunk n with
      | some (c1, ch1) => compileArguments c1 ch1 t
      | Option.none => Option.none

/-- `Compiler::compile_node` (`lacec.rs` lines 112–181). -/
def compileNode (consts : List Value) (chunk : List Instruction) :
    Node → Option (List Value × List Instruction)
  | .unary n operation => compileExpression consts chunk (.unary n operation)
  | .value v => compileExpression consts chunk (.value v)
  | .binary l r operator => compileExpression consts chunk (.binary l r operator)
  | .functionCall name args => compileExpression consts chunk (.functionCall name args)
  | .primitiveFunctionCall name args =>
      compileExpression consts chunk (.primitiveFunctionCall name args)
  | .ret n =>
      match compileExpression consts chunk n with
      | some (c1, ch1) => some (c1, ch1 ++ [.ret])
      | Option.none => Option.none
  | .retNone => some (consts, chunk ++ [.retNone])
  | .variableDeclr name v =>
      match compileExpression consts chunk v with
      | some (c1, ch1) =>
          let p := addConstant c1 (.identifier name)
          some (p.2, ch1 ++ [.assignVariable p.1])
      | Option.none => Option.none
  | .variableAssignment name v =>
      match compileExpression consts chunk v with
      | some (c1, ch1) =>
          let p := addConstant c1 (.identifier name)
          some (p.2, ch1 ++ [.assignVariable p.1])
      | Option.none => Option.none
  | .function name params body coroutine =>
      match compileBody consts [] body with
      | some (c1, code) =>
          let p := addConstant c1 (.function code params coroutine)
          let q := addConstant p.2 (.identifier name)
          some (q.2, chunk ++ [.loadConstant p.1, .assignVariable q.1])
      | Option.none => Option.none
  | .whileLoop cond body =>
      let jumpIdx := chunk.length
      match compileExpression consts chunk cond with
      | some (c1, ch1) =>
          let ch2 := ch1 ++ [.jumpF 0]
          let jumpfIdx := ch2.length - 1
          match compileBody c1 ch2 body with
          | some (c2, ch3) =>
              let ch4 := ch3 ++ [.jump jumpIdx]
              some (c2, ch4.set jumpfIdx (.jumpF ch4.length))
          | Option.none => Option.none
      | Option.none => Option.none

/-- The `for node in body/function { self.compile_node(...) }` loops inside
`Node::Function` and `Node::WhileLoop`, and `Compiler::compile` itself
(the drain over the source nodes, `lacec.rs` lines 183–187). -/
def compileBody (consts : List Value) (chunk : List Instruction) :
    NodeList → Option (List Value × List Instruction)
  | .nil => some (consts, chunk)
  | .cons n t =>
      match compileNode consts chunk n with
      | some (c1, ch1) => compileBody c1 ch1 t
      | Option.none => Option.none
end

/-- `Compiler::new` + `Compiler::compile`: compile a program from an empty
constants pool into an empty chunk. -/
def compileProgram (source : NodeList) : Option (List Value × List Instruction) :=
  compileBody [] [] source

/-- `lace/src/vm.rs`, `struct CallFrame`: the locals map of one frame.
`FxHashMap::insert` is modelled by prepending; `get` by first-match
lookup. -/
structure Frame where
  locals : List (String × Value)
  deriving DecidableEq

/-- The mutable VM state of `lace/src/vm.rs` `struct VirtualMachine`
(minus the immutable constants, passed separately), plus two ghost
fields for the theorems: `trace` collects the index of every executed
instruction, `output` the argument lists of executed `writeln!` calls.
No instruction reads either ghost field.  `callStack` is in `Vec` order:
head = index 0 = the global frame, last = the current frame. -/
structure St where
  stack : List Value
  callStack : List Frame
  trace : List Nat
  output : List (List Value)
  deriving DecidableEq

/-- Result of a `VirtualMachine::run` invocation.  `panic` models a Rust
panic (`unwrap` failure, out-of-bounds index, panicking arithmetic, or
the `bo`/`bx`/`ba` calls that have no implementation); `rerror` models
`runtime_error(msg)` (print + exit); `exited` the `exit!` primitive. -/
inductive Outcome where
  | ok (ret : Value) (st : St)
  | panic
  | rerror (msg : String)
  | exited
  deriving DecidableEq

/-- Replace the last element of a list (used for writes through
`get_locals`, i.e. `call_stack.last_mut()`).  The caller has already
ruled out the empty case. -/
def setLast (cs : List Frame) (f : Frame) : List Frame := cs.dropLast ++ [f]

/-- The `parameters.reverse()`-then-pop loop of the `CallFunction` arm:
binds each parameter (in reversed declaration order) to a popped stack
value.  `Option.none` is a pop on an empty stack (panic). -/
def popBind : List String → List Value → List (String × Value) →
    Option (List (String × Value) × List Value)
  | [], stack, locals => some (locals, stack)
  | p :: ps, v :: stack, locals => popBind ps stack ((p, v) :: locals)
  | _ :: _, [], _ => Option.none

/-- Dispatch for the 15 two-operand instructions: the handler applied to
`a` (popped second, the left operand) and `b` (popped first, the right
operand). -/
def binOp : Instruction → Value → Value → Option Value
  | .add, a, b => a.add b
  | .sub, a, b => a.sub b
  | .mul, a, b => a.mul b
  | .div, a, b => a.div b
  | .mod, a, b => a.rem b
  | .pow, a, b => a.pow b
  | .leftShift, a, b => a.lsh b
  | .rightShift, a, b => a.rsh b
  | .unEq, a, b => a.ne b
  | .eq, a, b => a.eq b
  | .less, a, b => a.st b
  | .more, a, b => a.gt b
  | .lessEq, a, b => a.se b
  | .moreEq, a, b => a.ge b
  | _, _, _ => Option.none

/-- Is this instruction one of the two-operand dispatch cases above? -/
def isBinOp : Instruction → Bool
  | .add | .sub | .mul | .div | .mod | .pow | .leftShift | .rightShift
  | .unEq | .eq | .less | .more | .lessEq | .moreEq => Bool.true
  | _ => Bool.false

/-- `VirtualMachine::run` (`lace/src/vm.rs` lines 44–308), fuel-indexed:
`Option.none` means the fuel ran out (the source loops unboundedly).
One unit of fuel is consumed per executed instruction and per
end-of-code exit; the recursive `self.run(code)` of the `CallFunction`
arm runs the callee with the caller's remaining fuel. -/
def runL (consts : List Value) : Nat → List Instruction → Nat → St → Option Outcome
  | 0, _, _, _ => Option.none
  | fuel + 1, code, ip, st =>
    match code[ip]? with
    | Option.none =>
        -- `while ip < code.len()` exhausted: `self.call_stack.pop();
        -- Value::None` (lines 306–307).
        some (.ok .none { st with callStack := st.callStack.dropLast })
    | some instr =>
      let st := { st with trace := st.trace ++ [ip] }
      match instr with
      | .loadConstant idx =>
          match consts[idx]? with
          | some v => runL consts fuel code (ip + 1) { st with stack := v :: st.stack }
          | Option.none => some .panic
      | .loadVariable idx =>
          match consts[idx]? with
          | Option.none => some .panic
          | some c =>
            match c.extract with
            | Option.none => some .panic
            | some name =>
              match st.callStack.getLast? with
              | Option.none => some .panic
              | some cur =>
                match List.lookup name cur.locals with
                | some v =>
                    runL consts fuel code (ip + 1) { st with stack := v :: st.stack }
                | Option.none =>
                  match st.callStack.head? with
                  | Option.none => some .panic
                  | some g =>
                    match List.lookup name g.locals with
                    | some v =>
                        runL consts fuel code (ip + 1) { st with stack := v :: st.stack }
                    | Option.none =>
                        some (.rerror s!"variable {name} not found.")
      | .assignVariable idx =>
          match consts[idx]? with
          | Option.none => some .panic
          | some c =>
            match c.extract with
            | Option.none => some .panic
            | some name =>
              match st.stack with
              | [] => some .panic
              | v :: rest =>
                match st.callStack.getLast? with
                | Option.none => some .panic
                | some cur =>
                    runL consts fuel code (ip + 1)
                      { st with
                        stack := rest,
                        callStack := setLast st.callStack ⟨(name, v) :: cur.locals⟩ }
      | .callFunction _len =>
          match st.stack with
          | [] => some .panic
          | f :: rest =>
            match f with
            | .function fcode params _ =>
                match popBind params.reverse rest [] with
                | Option.none => some .panic
                | some (locals, rest2) =>
                  let st1 :=
                    { st with
                      stack := rest2,
                      callStack := st.callStack ++ [⟨locals⟩] }
                  match runL consts fuel fcode 0 st1 with
                  | some (.ok ret st2) =>
                      runL consts fuel code (ip + 1) { st2 with stack := ret :: st2.stack }
                  | other => other
            | _ => some (.rerror "variable <anonymous> is not callable.")
      | .callPrimitiveFunction len nameIdx =>
          match popN len st.stack with
          | Option.none => some .panic
          | some (rawArgs, rest) =>
            let args := rawArgs.reverse
            match consts[nameIdx]? with
            | Option.none => some .panic
            | some c =>
              match c.extract with
              | Option.none => some .panic
              | some name =>
                if name = "writeln!" then
                  -- `lace_writeln`'s return value is discarded (the match
                  -- is a statement); only the print effect remains.
                  runL consts fuel code (ip + 1)
                    { st with stack := rest, output := st.output ++ [args] }
                else if name = "exit!" then some .exited
                else some (.rerror s!"unknown primitive function {name}.")
      | .ret =>
          match st.stack with
          | [] => some .panic
          | v :: rest =>
              some (.ok v { st with stack := rest, callStack := st.callStack.dropLast })
      | .retNone =>
          some (.ok .none { st with callStack := st.callStack.dropLast })
      | .logicalNot =>
          match st.stack with
          | [] => some .panic
          | a :: rest =>
            match a.not with
            | some res => runL consts fuel code (ip + 1) { st with stack := res :: rest }
            | Option.none => some .panic
      | .negate =>
          match st.stack with
          | [] => some .panic
          | a :: rest =>
            match a.negate with
            | some res => runL consts fuel code (ip + 1) { st with stack := res :: rest }
            | Option.none => some .panic
      | .typeofOp =>
          match st.stack with
          | [] => some .panic
          | a :: rest =>
            match a.tpyeof with
            | some res => runL consts fuel code (ip + 1) { st with stack := res :: rest }
            | Option.none => some .panic
      | .jump idx => runL consts fuel code idx st
      | .jumpT idx =>
          match st.stack with
          | [] => some .panic
          | a :: rest =>
            match a.istruthy with
            | Option.none => some .panic
            | some b =>
                if b then runL consts fuel code idx { st with stack := rest }
                else runL consts fuel code (ip + 1) { st with stack := rest }
      | .jumpF idx =>
          match st.stack with
          | [] => some .panic
          | a :: rest =>
            match a.istruthy with
            | Option.none => some .panic
            | some b =>
                if !b then runL consts fuel code idx { st with stack := rest }
                else runL consts fuel code (ip + 1) { st with stack := rest }
      | .binaryOr => some .panic
      | .binaryAnd => some .panic
      | op =>
          -- the 14 two-operand arms: pop `b`, pop `a`, push the result
          match st.stack with
          | b :: a :: rest =>
            match binOp op a b with
            | some res => runL consts fuel code (ip + 1) { st with stack := res :: rest }
            | Option.none => some .panic
          | _ => some .panic

/-- Deterministic multi-step reachability for `runL`: execution from
`(ip, st)` arrives, after exactly `k` fuel units, at `(ip', st')`, in the
sense that the run functions agree under a fuel shift of `k`. -/
def Reaches (consts : List Value) (code : List Instruction)
    (ip : Nat) (st : St) (ip' : Nat) (st' : St) : Prop :=
  ∃ k, ∀ fuel, runL consts (fuel + k) code ip st = runL consts fuel code ip' st'

end Lace

namespace Hlvm

/-- `hlvm/src/lir.rs`, `enum HlvmValue`.  `Number` is `f64`, carried as
`Rat`; the claims settled against this machine push only booleans and the
small integers 1–3, on which every modelled operation is exact.  The
four always-truthy composite variants (`StructInstance`,
`StructBlueprint`, `Function`, `BuiltInFunction`) are omitted: no claim
touches them and the modelled HIR subset cannot produce them. -/
inductive HlvmValue where
  | number (q : Rat)
  | bool (b : Bool)
  | string (s : String)
  deriving DecidableEq

/-- `HlvmValue::is_truthy` (`lir.rs` lines 30–40): nonzero number,
nonempty string, boolean identity. -/
def HlvmValue.is_truthy : HlvmValue → Bool
  | .number v => decide (v ≠ 0)
  | .string s => !s.isEmpty
  | .bool b => b

/-- `dev.rs` line 168, `fn not`: `Bool(!self.is_truthy())`. -/
def HlvmValue.hnot (v : HlvmValue) : HlvmValue := .bool (!v.is_truthy)

/-- The LIR instruction subset of `hlvm/src/lir.rs` `enum HlvmInstruction`
reachable from the modelled HIR subset; the remaining instructions are
one-to-one pass-throughs in `from_hir` and never produced by the
`IfStatement`/`WhileStatement` lowering. -/
inductive HlvmInstruction where
  | push (v : HlvmValue)
  | ret
  | retValue
  | not
  | jump (addr : Nat)
  | jumpIf (addr : Nat)
  deriving DecidableEq

/-- The local `enum JumpType` of the `IfStatement` arm of `from_hir`
(`hir.rs` lines 150–153).  Source constructor names: `Next`, `End`
(renamed here because `end` is a Lean keyword). -/
inductive JumpType where
  | toNext
  | toEnd
  deriving DecidableEq

mutual
/-- The HIR subset of `hlvm/src/hir.rs` `enum HlvmHirInstruction` needed
by the claims: stack pushes, `Not`, the two returns, and the two
control-flow constructs whose lowering is under test.  The remaining
HIR constructors are one-to-one pass-throughs (`hir.rs` lines 94–148). -/
inductive HlvmHirInstruction where
  | push (v : HlvmValue)
  | ret
  | retValue
  | not
  | ifStatement (ontrue : HirList) (onelseif : ElseifsOpt) (onfalse : HirList)
  | whileStatement (condition : HirList) (body : HirList)
inductive HirList where
  | nil
  | cons (i : HlvmHirInstruction) (t : HirList)
inductive ElseifsOpt where
  | none
  | some (l : ElseifList)
inductive ElseifList where
  | nil
  | cons (condition : HirList) (code : HirList) (t : ElseifList)
end

/-- The patch pass of the `IfStatement` arm (`hir.rs` lines 184–203):
walk `jump_offsets` in order, rewriting each placeholder; a `Next`
placeholder becomes `end_offset` when `index + 1 == block_offsets.len()`
and otherwise pre-increments `index` and targets `block_offsets[index]`
(the source's `index = index + 1; block_offsets[index]`); an `End`
placeholder always becomes `end_offset`. -/
def patchLoop (blockOffsets : List Nat) (endOffset : Nat) :
    List (Nat × JumpType) → List HlvmInstruction → Nat → List HlvmInstruction
  | [], instructions, _ => instructions
  | (offset, jt) :: rest, instructions, index =>
    match jt with
    | .toNext =>
        if index + 1 = blockOffsets.length then
          patchLoop blockOffsets endOffset rest
            (instructions.set offset (.jumpIf endOffset)) index
        else
          patchLoop blockOffsets endOffset rest
            (instructions.set offset (.jumpIf (blockOffsets.getD (index + 1) 0)))
            (index + 1)
    | .toEnd =>
        patchLoop blockOffsets endOffset rest
          (instructions.set offset (.jump endOffset)) index

mutual
/-- The `for instruction in source` loop of `from_hir`: each HIR
instruction appends to the growing instruction vector.  A nested block is
lowered by a fresh loop over an empty vector (the source's
`instructions.append(&mut from_hir(block))`), spelled `fromHirInto []`
here so that the recursion is structural. -/
def fromHirInto (instructions : List HlvmInstruction) : HirList → List HlvmInstruction
  | .nil => instructions
  | .cons i t => fromHirInto (emit instructions i) t

/-- One iteration of `from_hir`'s match.  The `IfStatement` arm follows
the source line by line: emit `Not; JumpIf(0)` recording a `Next`
placeholder, the `ontrue` block, `Jump(0)` recording an `End`
placeholder, then a block offset; per `elseif`: condition, `Not;
JumpIf(0)` (`Next`), code, `Jump(0)` (`End`), block offset; then the
`onfalse` block; finally the patch pass over all placeholders. -/
def emit (instructions : List HlvmInstruction) : HlvmHirInstruction → List HlvmInstruction
  | .push v => instructions ++ [.push v]
  | .ret => instructions ++ [.ret]
  | .retValue => instructions ++ [.retValue]
  | .not => instructions ++ [.not]
  | .ifStatement ontrue onelseif onfalse =>
      let i1 := instructions ++ [.not, .jumpIf 0]
      let jumpOffsets1 : List (Nat × JumpType) := [(i1.length - 1, .toNext)]
      let i2 := i1 ++ fromHirInto [] ontrue
      let i3 := i2 ++ [.jump 0]
      let jumpOffsets2 := jumpOffsets1 ++ [(i3.length - 1, .toEnd)]
      let blockOffsets1 : List Nat := [i3.length]
      let r := emitElseifsOpt (i3, jumpOffsets2, blockOffsets1) onelseif
      let i4 := r.1 ++ fromHirInto [] onfalse
      let endOffset := i4.length
      patchLoop r.2.2 endOffset r.2.1 i4 0
  | .whileStatement condition body =>
      let startOffset := instructions.length
      let i1 := instructions ++ fromHirInto [] condition
      let i2 := i1 ++ [.not]
      let jmpifOffset := i2.length
      let i3 := i2 ++ [.jumpIf 0]
      let i4 := i3 ++ fromHirInto [] body
      let i5 := i4 ++ [.jump startOffset]
      let endOffset := i5.length
      i5.set jmpifOffset (.jumpIf endOffset)

/-- Dispatch on the `Option`-typed `onelseif` field (`hir.rs`
lines 166–177, the `if let Some(elseifs) = onelseif`). -/
def emitElseifsOpt (state : List HlvmInstruction × List (Nat × JumpType) × List Nat) :
    ElseifsOpt → List HlvmInstruction × List (Nat × JumpType) × List Nat
  | .none => state
  | .some elseifs => emitElseifs state elseifs

/-- The `for (condition, code) in elseifs` loop of the `IfStatement` arm
(`hir.rs` lines 166–177); the state is (instructions, jump offsets,
block offsets). -/
def emitElseifs (state : List HlvmInstruction × List (Nat × JumpType) × List Nat) :
    ElseifList → List HlvmInstruction × List (Nat × JumpType) × List Nat
  | .nil => state
  | .cons condition code t =>
      let i1 := state.1 ++ fromHirInto [] condition
      let i2 := i1 ++ [.not, .jumpIf 0]
      let j1 := state.2.1 ++ [(i2.length - 1, JumpType.toNext)]
      let i3 := i2 ++ fromHirInto [] code
      let i4 := i3 ++ [.jump 0]
      let j2 := j1 ++ [(i4.length - 1, JumpType.toEnd)]
      let b1 := state.2.2 ++ [i4.length]
      emitElseifs (i4, j2, b1) t
end

/-- `from_hir` (`hir.rs` lines 89–222): lower a HIR vector to LIR
instructions, starting from an empty instruction vector. -/
def fromHir (source : HirList) : List HlvmInstruction :=
  fromHirInto [] source

/-- Result of `HighLevelVirtualMachine::execute`: `ok` carries the `Ok`
value; `panic` models the `unwrap`/`todo!` panics. -/
inductive HlvmOutcome where
  | ok (v : HlvmValue)
  | panic
  deriving DecidableEq

/-- `HighLevelVirtualMachine::execute` (`hlvm/src/vm.rs` lines 66–199),
fuel-indexed, restricted to the modelled instruction subset (the state
the subset touches is the operand stack).  Falling past the end of the
instructions and the `Return` instruction both yield `Number(0.0)`;
`ReturnValue` pops and returns the top of the stack; `JumpIf` pops and
jumps when the popped value is truthy. -/
def execute : Nat → List HlvmInstruction → Nat → List HlvmValue → Option HlvmOutcome
  | 0, _, _, _ => Option.none
  | fuel + 1, instructions, ip, stack =>
    match instructions[ip]? with
    | Option.none => some (.ok (.number 0))
    | some instr =>
      match instr with
      | .push v => execute fuel instructions (ip + 1) (v :: stack)
      | .ret => some (.ok (.number 0))
      | .retValue =>
          match stack with
          | v :: _ => some (.ok v)
          | [] => some .panic
      | .not =>
          match stack with
          | v :: rest => execute fuel instructions (ip + 1) (v.hnot :: rest)
          | [] => some .panic
      | .jump addr => execute fuel instructions addr stack
      | .jumpIf addr =>
          match stack with
          | [] => some .panic
          | v :: rest =>
              if v.is_truthy then execute fuel instructions addr rest
              else execute fuel instructions (ip + 1) rest

end Hlvm

namespace Svm

/-- The runtime `Value` union of the `src/` generation.  The variant set
is that of `src/vm/opcode.rs` (`String`, `Integer`, `Float`, `Bool`,
`Array`, `None`); the integer width is `i64` and the float width `f64`,
per the crate-root `src/opcode.rs` (`Integer(i64)`, `Float(f64)`) — the
widths `src/vm/arithmetic.rs` is written against (its mixed arms cast
with `as f64`).  `src/vm/opcode.rs` declares an `i32`/`f32` variant of
the same union; the two coexist in the source tree and only the width
differs. -/
inductive Value where
  | string (s : String)
  | integer (n : Int)
  | float (q : Rat)
  | bool (b : Bool)
  | array (xs : List Value)
  | none

mutual
/-- Structural equality of the derived `PartialEq`, written out because
of the nested `Array` variant. -/
def Value.beq : Value → Value → Bool
  | .string a, .string b => a == b
  | .integer a, .integer b => a == b
  | .float a, .float b => a == b
  | .bool a, .bool b => a == b
  | .array a, .array b => beqList a b
  | .none, .none => Bool.true
  | _, _ => Bool.false
def beqList : List Value → List Value → Bool
  | [], [] => Bool.true
  | a :: as2, b :: bs => Value.beq a b && beqList as2 bs
  | _, _ => Bool.false
end

/-- `get_type` (`src/vm/value/exception.rs` lines 3–12; the copy in
`src/vm/common.rs` differs only in lacking the `Array` arm). -/
def get_type : Value → String
  | .string _ => "string"
  | .integer _ => "integer"
  | .float _ => "float"
  | .array _ => "array"
  | .bool _ => "bool"
  | .none => "none"

/-- `unsupported_operation` (`exception.rs`/`common.rs`): the formatted
message handed to `Data::raise`. -/
def unsupported_operation (a b : Value) (o : String) : String :=
  s!"Unsupported operation [{get_type a} {o} {get_type b}]"

/-! `i64` checked arithmetic (`i64::checked_add` etc.). -/

def checkedAdd64 (a b : Int) : Option Int :=
  if inI64 (a + b) then some (a + b) else Option.none

def checkedSub64 (a b : Int) : Option Int :=
  if inI64 (a - b) then some (a - b) else Option.none

def checkedMul64 (a b : Int) : Option Int :=
  if inI64 (a * b) then some (a * b) else Option.none

def checkedDiv64 (a b : Int) : Option Int :=
  if b = 0 ∨ (a = -(2 ^ 63) ∧ b = -1) then Option.none else some (Int.tdiv a b)

def checkedRem64 (a b : Int) : Option Int :=
  if b = 0 ∨ (a = -(2 ^ 63) ∧ b = -1) then Option.none else some (Int.tmod a b)

/-- `i32::checked_mul`, for the `i32` copy of `exponentiate`. -/
def checkedMul32 (a b : Int) : Option Int :=
  if inI32 (a * b) then some (a * b) else Option.none

/-- The `for _ in 1..exp { ret = ret.checked_mul(num)? }` loop of
`exponentiate`, with the iteration count made explicit. -/
def expLoop (chkMul : Int → Int → Option Int) : Nat → Int → Int → Option Int
  | 0, ret, _ => some ret
  | n + 1, ret, num =>
      match chkMul ret num with
      | some iret => expLoop chkMul n iret num
      | Option.none => Option.none

/-- `exponentiate` (`src/vm/common.rs` lines 24–37, `i64`): `ret` starts
at `num` and `for _ in 1..exp` multiplies it by `num`, checked — that is
`max (exp - 1) 0` iterations, so every `exp ≤ 1` (including `0` and
negatives) returns `num` itself. -/
def exponentiate (num exp : Int) : Option Int :=
  expLoop checkedMul64 (exp - 1).toNat num num

/-- The identical `i32` copy (`src/vm/value/operation.rs` lines 6–19). -/
def exponentiate32 (num exp : Int) : Option Int :=
  expLoop checkedMul32 (exp - 1).toNat num num

/-! The binary operations of `src/vm/arithmetic.rs`.  `Except.error msg`
models `context.raise(msg)`/`Data::raise` (print + `exit`); the `Float`
arms carry the `as f64` casts on `Rat`. -/

def add : Value → Value → Except String Value
  | .string av, .string bv => .ok (.string (av ++ bv))
  | .string av, b => .error (unsupported_operation (.string av) b "+")
  | .integer av, .integer bv =>
      match checkedAdd64 av bv with
      | some int => .ok (.integer int)
      | Option.none => .error "Integer addition resulted in overflow"
  | .integer av, .float bv => .ok (.float (av + bv))
  | .integer av, b => .error (unsupported_operation (.integer av) b "+")
  | .float av, .float bv => .ok (.float (av + bv))
  | .float av, .integer bv => .ok (.float (av + bv))
  | .float av, b => .error (unsupported_operation (.float av) b "+")
  | a, b => .error (unsupported_operation a b "+")

def sub : Value → Value → Except String Value
  | .integer av, .integer bv =>
      match checkedSub64 av bv with
      | some int => .ok (.integer int)
      | Option.none => .error "Integer subtraction resulted in overflow"
  | .integer av, .float bv => .ok (.float (av - bv))
  | .integer av, b => .error (unsupported_operation (.integer av) b "-")
  | .float av, .float bv => .ok (.float (av - bv))
  | .float av, .integer bv => .ok (.float (av - bv))
  | .float av, b => .error (unsupported_operation (.float av) b "-")
  | a, b => .error (unsupported_operation a b "-")

def mul : Value → Value → Except String Value
  | .string av, .integer bv => .ok (.string (strRepeat av (usizeOfInt bv)))
  | .string av, b => .error (unsupported_operation (.string av) b "*")
  | .integer av, .integer bv =>
      match checkedMul64 av bv with
      | some int => .ok (.integer int)
      | Option.none => .error "Integer multiplication resulted in overflow"
  | .integer av, .float bv => .ok (.float (av * bv))
  | .integer av, b => .error (unsupported_operation (.integer av) b "*")
  | .float av, .float bv => .ok (.float (av * bv))
  | .float av, .integer bv => .ok (.float (av * bv))
  | .float av, b => .error (unsupported_operation (.float av) b "*")
  | a, b => .error (unsupported_operation a b "*")

def div : Value → Value → Except String Value
  | .integer av, .integer bv =>
      match checkedDiv64 av bv with
      | some int => .ok (.integer int)
      | Option.none => .error "Integer division resulted in overflow"
  | .integer av, .float bv => .ok (.float ((av : Rat) / bv))
  | .integer av, b => .error (unsupported_operation (.integer av) b "/")
  | .float av, .float bv => .ok (.float (av / bv))
  | .float av, .integer bv => .ok (.float (av / (bv : Rat)))
  | .float av, b => .error (unsupported_operation (.float av) b "/")
  | a, b => .error (unsupported_operation a b "/")

def rem : Value → Value → Except String Value
  | .integer av, .integer bv =>
      match checkedRem64 av bv with
      | some int => .ok (.integer int)
      | Option.none => .error "Integer remainder resulted in overflow"
  | .integer av, .float bv => .ok (.float ((av : Rat) - bv * ((av : Rat) / bv).floor))
  | .integer av, b => .error (unsupported_operation (.integer av) b "%")
  | .float av, .float bv => .ok (.float (av - bv * (av / bv).floor))
  | .float av, .integer bv => .ok (.float (av - bv * (av / (bv : Rat)).floor))
  | .float av, b => .error (unsupported_operation (.float av) b "%")
  | a, b => .error (unsupported_operation a b "%")

/-- `pow` (`arithmetic.rs` lines 142–153): only `Integer ** Integer` is
supported, via `exponentiate`; note the source reuses the `"%"` operator
string in its error messages. -/
def pow : Value → Value → Except String Value
  | .integer av, .integer bv =>
      match exponentiate av bv with
      | some int => .ok (.integer int)
      | Option.none => .error "Integer exponentiation resulted in overflow"
  | .integer av, b => .error (unsupported_operation (.integer av) b "%")
  | a, b => .error (unsupported_operation a b "%")

def eq (a b : Value) : Except String Value := .ok (.bool (Value.beq a b))

def neq (a b : Value) : Except String Value := .ok (.bool (!Value.beq a b))

def more : Value → Value → Except String Value
  | .integer av, .integer bv => .ok (.bool (decide (av > bv)))
  | .integer av, .float bv => .ok (.bool (decide ((av : Rat) > bv)))
  | .integer av, b => .error (unsupported_operation (.integer av) b ">")
  | .float av, .float bv => .ok (.bool (decide (av > bv)))
  | .float av, .integer bv => .ok (.bool (decide (av > (bv : Rat))))
  | .float av, b => .error (unsupported_operation (.float av) b ">")
  | a, b => .error (unsupported_operation a b ">")

def less : Value → Value → Except String Value
  | .integer av, .integer bv => .ok (.bool (decide (av < bv)))
  | .integer av, .float bv => .ok (.bool (decide ((av : Rat) < bv)))
  | .integer av, b => .error (unsupported_operation (.integer av) b "<")
  | .float av, .float bv => .ok (.bool (decide (av < bv)))
  | .float av, .integer bv => .ok (.bool (decide (av < (bv : Rat))))
  | .float av, b => .error (unsupported_operation (.float av) b "<")
  | a, b => .error (unsupported_operation a b "<")

def more_than : Value → Value → Except String Value
  | .integer av, .integer bv => .ok (.bool (decide (av ≥ bv)))
  | .integer av, .float bv => .ok (.bool (decide ((av : Rat) ≥ bv)))
  | .integer av, b => .error (unsupported_operation (.integer av) b ">=")
  | .float av, .float bv => .ok (.bool (decide (av ≥ bv)))
  | .float av, .integer bv => .ok (.bool (decide (av ≥ (bv : Rat))))
  | .float av, b => .error (unsupported_operation (.float av) b ">=")
  | a, b => .error (unsupported_operation a b ">=")

def less_than : Value → Value → Except String Value
  | .integer av, .integer bv => .ok (.bool (decide (av ≤ bv)))
  | .integer av, .float bv => .ok (.bool (decide ((av : Rat) ≤ bv)))
  | .integer av, b => .error (unsupported_operation (.integer av) b "<=")
  | .float av, .float bv => .ok (.bool (decide (av ≤ bv)))
  | .float av, .integer bv => .ok (.bool (decide (av ≤ (bv : Rat))))
  | .float av, b => .error (unsupported_operation (.float av) b "<=")
  | a, b => .error (unsupported_operation a b "<=")

/-- `src/vm/opcode.rs`, `enum OpCode`.  The source constructor
`CallMacro(NameIdx, Length)` is rendered `callPrim` here. -/
inductive OpCode where
  | loadConst (idx : Nat)
  | loadVariable (idx : Nat)
  | assignVar (idx : Nat)
  | callPrim (idx : Nat) (argLen : Nat)
  | callFunction (idx : Nat) (argLen : Nat)
  | loadBuiltinValue (idx : Nat)
  | formatString
  | buildList (len : Nat)
  | convertTo (t : Nat)
  | add
  | sub
  | mul
  | div
  | mod
  | pow
  | lshift
  | rshift
  | equal
  | notEqual
  | more
  | less
  | moreOrEqual
  | lessOrEqual
  | ret
  | retNone

/-- `operate` (`arithmetic.rs` lines 233–249): dispatch a binary opcode;
the `_ => raise_internal("0012")` arm covers the shifts. -/
def operate (a b : Value) : OpCode → Except String Value
  | .add => add a b
  | .sub => sub a b
  | .mul => mul a b
  | .div => div a b
  | .mod => rem a b
  | .pow => pow a b
  | .equal => eq a b
  | .notEqual => neq a b
  | .more => more a b
  | .less => less a b
  | .moreOrEqual => more_than a b
  | .lessOrEqual => less_than a b
  | _ => .error "internal error: 0012"

/-- `src/vm/opcode.rs`, `struct CodeObject` (`parameters` are
`(name, mutable)` pairs; `functions` is the name→child map, modelled as
an association list). -/
inductive CodeObject where
  | mk (code : List OpCode) (constants : List Value)
      (parameters : List (String × Bool))
      (functions : List (String × CodeObject)) (file : String)

def CodeObject.code : CodeObject → List OpCode
  | .mk c _ _ _ _ => c

def CodeObject.constants : CodeObject → List Value
  | .mk _ c _ _ _ => c

def CodeObject.parameters : CodeObject → List (String × Bool)
  | .mk _ _ p _ _ => p

def CodeObject.functions : CodeObject → List (String × CodeObject)
  | .mk _ _ _ f _ => f

/-- The arity-mismatch message of the `CallFunction` arm
(`src/vm/mod.rs` lines 124–131). -/
def arityMsg (name : String) (expected got : Nat) : String :=
  s!"Function {name} expected {expected} arguments, got {got}."

/-- Terminal state of one `run` invocation: the final operand stack and
variables (the source then returns `Value::None`), a panic, or a fatal
`raise`.  (`raise_internal` exits too; its outcomes carry an
`internal error:` message.) -/
inductive SRes where
  | done (stack : List Value) (vars : List (String × Value))
  | panic
  | rerror (msg : String)

/-- The parameter-binding loop of `CallFunction`
(`mod.rs` lines 133–137): `parameters.iter().zip(arguments)` inserted
into a fresh map. -/
def bindParams (params : List (String × Bool)) (args : List Value) :
    List (String × Value) :=
  ((params.zip args).map fun p => (p.1.1, p.2)).reverse

/-- `run` (`src/vm/mod.rs` lines 11–151), fuel-indexed.  The source has
no jumps in this generation: the dispatch is a plain `for opcode in
function.code` walk, modelled by recursion on the remaining code list;
one fuel unit is consumed per instruction and the recursive
`CallFunction` call runs the callee on the caller's remaining fuel with
a fresh stack and the bound arguments as its variables.  The first
component of the result is the ghost output: the argument list of every
executed `writeln` macro call.  Unhandled opcodes (`FormatString`,
`BuildList`, `ConvertTo`, `Return`, `ReturnNone` — and `LessOrEqual`,
absent from the binary-dispatch arm's pattern list) fall to the
source's `_ => {}` and are skipped. -/
def runS : Nat → List OpCode → CodeObject → List (String × Value) →
    List (String × CodeObject) → List Value → List (List Value) × Option SRes
  | 0, _, _, _, _, _ => ([], Option.none)
  | _ + 1, [], _, vars, _, stack => ([], some (.done stack vars))
  | fuel + 1, op :: rest, co, vars, gf, stack =>
    match op with
    | .loadConst idx =>
        match co.constants[idx]? with
        | some v => runS fuel rest co vars gf (v :: stack)
        | Option.none => ([], some .panic)
    | .loadVariable idx =>
        match co.constants[idx]? with
        | Option.none => ([], some .panic)
        | some (.string name) =>
            match List.lookup name vars with
            | some v => runS fuel rest co vars gf (v :: stack)
            | Option.none => ([], some (.rerror s!"Variable `{name}` does not exist"))
        | some _ => runS fuel rest co vars gf stack
    | .assignVar idx =>
        match co.constants[idx]? with
        | Option.none => ([], some .panic)
        | some (.string name) =>
            match stack with
            | elem :: stack2 => runS fuel rest co ((name, elem) :: vars) gf stack2
            | [] => ([], some .panic)
        | some _ => runS fuel rest co vars gf stack
    | .loadBuiltinValue idx =>
        match idx with
        | 0 => runS fuel rest co vars gf (Value.none :: stack)
        | 1 => runS fuel rest co vars gf (Value.bool Bool.true :: stack)
        | 2 => runS fuel rest co vars gf (Value.bool Bool.false :: stack)
        | _ => ([], some (.rerror "internal error: 0015"))
    | .callPrim idx argLen =>
        match co.constants[idx]? with
        | Option.none => ([], some .panic)
        | some (.string name) =>
            match popN argLen stack with
            | Option.none => ([], some .panic)
            | some (raw, stack2) =>
                let arguments := raw.reverse
                if name = "writeln" then
                  let r := runS fuel rest co vars gf (Value.none :: stack2)
                  (arguments :: r.1, r.2)
                else ([], some (.rerror s!"Macro {name} not found."))
        | some _ => ([], some (.rerror "internal error: 0009"))
    | .callFunction idx argLen =>
        match co.constants[idx]? with
        | Option.none => ([], some .panic)
        | some (.string name) =>
            match popN argLen stack with
            | Option.none => ([], some .panic)
            | some (raw, stack2) =>
                let arguments := raw.reverse
                match
                  (match List.lookup name co.functions with
                   | some func => some func
                   | Option.none => List.lookup name gf) with
                | Option.none => ([], some (.rerror s!"Function {name} not found."))
                | some func =>
                    if arguments.length ≠ func.parameters.length then
                      ([], some (.rerror
                        (arityMsg name func.parameters.length arguments.length)))
                    else
                      match runS fuel func.code func (bindParams func.parameters arguments) gf [] with
                      | (out1, some (.done _ _)) =>
                          let r := runS fuel rest co vars gf (Value.none :: stack2)
                          (out1 ++ r.1, r.2)
                      | (out1, some .panic) => (out1, some .panic)
                      | (out1, some (.rerror msg)) => (out1, some (.rerror msg))
                      | (out1, Option.none) => (out1, Option.none)
        | some _ => ([], some (.rerror "internal error: 0016"))
    | .add | .sub | .mul | .div | .mod | .pow | .rshift | .lshift
    | .equal | .notEqual | .more | .less | .moreOrEqual =>
        match stack with
        | b :: a :: stack2 =>
            match operate a b op with
            | .ok v => runS fuel rest co vars gf (v :: stack2)
            | .error msg => ([], some (.rerror msg))
        | _ => ([], some .panic)
    | _ => runS fuel rest co vars gf stack

end Svm

namespace Svm

/-- `Vec::iter().position(|x| x == &value)` over the constant pool of
`src/vm/opcode.rs` / `src/opcode.rs`: first index holding a value
structurally equal (derived `PartialEq`, i.e. `Value.beq`) to `value`. -/
def position (constants : List Value) (value : Value) : Option Nat :=
  match constants with
  | [] => Option.none
  | x :: xs =>
      if Value.beq x value then some 0
      else (position xs value).map (· + 1)

/-- `CodeObject::add_constant` (`src/vm/opcode.rs` lines 90–98, and the
identical copy in `src/opcode.rs` lines 50–58): return the index of an
already-present structurally equal value, else append.  The mutated pool
is returned alongside the index. -/
def add_constant (constants : List Value) (value : Value) : Nat × List Value :=
  match position constants value with
  | some index => (index, constants)
  | Option.none => (constants.length, constants ++ [value])

end Svm

/-!
## Theorems

Helper lemmas first, then one theorem per claim (with a witness where the
theorem carries hypotheses, and counterexamples where a claim fails).
-/

theorem wrap32_eq_of_inI32 {n : Int} (h : inI32 n) : wrap32 n = n := by
  obtain ⟨h1, h2⟩ := h
  unfold wrap32
  rw [Int.emod_eq_of_lt (by omega) (by omega)]
  omega

namespace Lace

theorem Reaches.trans {consts code ip st ip' st' ip'' st''}
    (h1 : Reaches consts code ip st ip' st')
    (h2 : Reaches consts code ip' st' ip'' st'') :
    Reaches consts code ip st ip'' st'' := by
  obtain ⟨k1, hk1⟩ := h1
  obtain ⟨k2, hk2⟩ := h2
  exact ⟨k1 + k2, fun fuel => by
    rw [show fuel + (k1 + k2) = fuel + k2 + k1 by omega, hk1, hk2]⟩

theorem reaches_of_step {consts code ip st ip' st'}
    (h : ∀ fuel, runL consts (fuel + 1) code ip st = runL consts fuel code ip' st') :
    Reaches consts code ip st ip' st' := ⟨1, h⟩

/-! Single-instruction unfoldings of `runL`, one per instruction shape the
theorems need. -/

theorem step_jump {consts : List Value} {code : List Instruction} {ip t : Nat} {st : St}
    (h : code[ip]? = some (.jump t)) (fuel : Nat) :
    runL consts (fuel + 1) code ip st
      = runL consts fuel code t { st with trace := st.trace ++ [ip] } := by
  simp only [runL, h]

theorem step_jumpF_false {consts : List Value} {code : List Instruction} {ip t : Nat}
    {st : St} {v : Value} {rest : List Value}
    (h : code[ip]? = some (.jumpF t)) (hs : st.stack = v :: rest)
    (hv : v.istruthy = some Bool.false) (fuel : Nat) :
    runL consts (fuel + 1) code ip st
      = runL consts fuel code t { st with stack := rest, trace := st.trace ++ [ip] } := by
  simp only [runL, h, hs, hv]
  rfl

theorem step_jumpF_true {consts : List Value} {code : List Instruction} {ip t : Nat}
    {st : St} {v : Value} {rest : List Value}
    (h : code[ip]? = some (.jumpF t)) (hs : st.stack = v :: rest)
    (hv : v.istruthy = some Bool.true) (fuel : Nat) :
    runL consts (fuel + 1) code ip st
      = runL consts fuel code (ip + 1)
          { st with stack := rest, trace := st.trace ++ [ip] } := by
  simp only [runL, h, hs, hv]
  rfl

theorem step_logicalNot {consts : List Value} {code : List Instruction} {ip : Nat}
    {st : St} {v : Value} {rest : List Value} {b : Bool}
    (h : code[ip]? = some .logicalNot) (hs : st.stack = v :: rest)
    (hv : v.istruthy = some b) (fuel : Nat) :
    runL consts (fuel + 1) code ip st
      = runL consts fuel code (ip + 1)
          { st with stack := bool2value (!b) :: rest, trace := st.trace ++ [ip] } := by
  simp only [runL, h, hs, Value.not, hv]
  rfl

theorem step_loadConstant {consts : List Value} {code : List Instruction} {ip i : Nat}
    {st : St} {v : Value}
    (h : code[ip]? = some (.loadConstant i)) (hc : consts[i]? = some v) (fuel : Nat) :
    runL consts (fuel + 1) code ip st
      = runL consts fuel code (ip + 1)
          { st with stack := v :: st.stack, trace := st.trace ++ [ip] } := by
  simp only [runL, h, hc]

theorem step_sub {consts : List Value} {code : List Instruction} {ip : Nat}
    {st : St} {a b res : Value} {rest : List Value}
    (h : code[ip]? = some .sub) (hs : st.stack = b :: a :: rest)
    (hab : a.sub b = some res) (fuel : Nat) :
    runL consts (fuel + 1) code ip st
      = runL consts fuel code (ip + 1)
          { st with stack := res :: rest, trace := st.trace ++ [ip] } := by
  simp only [runL, h, hs, binOp, hab]

theorem step_div {consts : List Value} {code : List Instruction} {ip : Nat}
    {st : St} {a b res : Value} {rest : List Value}
    (h : code[ip]? = some .div) (hs : st.stack = b :: a :: rest)
    (hab : a.div b = some res) (fuel : Nat) :
    runL consts (fuel + 1) code ip st
      = runL consts fuel code (ip + 1)
          { st with stack := res :: rest, trace := st.trace ++ [ip] } := by
  simp only [runL, h, hs, binOp, hab]

/-! The compiler only ever appends to the chunk it is given.  (The one
`Vec` write-back, the `JumpF` patch of the while lowering, happens at an
index past the incoming chunk.)  These four lemmas make that precise. -/

theorem set_append_len {α : Type} (X : List α) (a b : α) (Y : List α) :
    (X ++ a :: Y).set X.length b = X ++ b :: Y := by
  induction X with
  | nil => rfl
  | cons x xs ih =>
      simp only [List.cons_append, List.length_cons, List.set]
      exact congrArg (List.cons x) ih

theorem set_append_ge {α : Type} (X Y : List α) (n : Nat) (a : α) :
    (X ++ Y).set (X.length + n) a = X ++ Y.set n a := by
  induction X with
  | nil => simp
  | cons x xs ih =>
      rw [show (x :: xs).length + n = (xs.length + n) + 1 by simp; omega]
      simp only [List.cons_append, List.set]
      exact congrArg (List.cons x) ih

theorem getElem?_append_len {α : Type} (X : List α) (a : α) (Y : List α) :
    (X ++ a :: Y)[X.length]? = some a := by
  induction X with
  | nil => simp
  | cons x xs ih => simpa using ih

theorem append_chunk_ex {α : Type} {chunk D X Z : List α} {Y : List α}
    (h2 : X ++ Y = Z) (hD : X = chunk ++ D) : ∃ E, Z = chunk ++ E :=
  ⟨D ++ Y, by rw [← h2, hD, List.append_assoc]⟩

mutual
theorem compileExpression_append (n : Node) :
    ∀ consts chunk c' ch', compileExpression consts chunk n = some (c', ch') →
      ∃ D, ch' = chunk ++ D := by
  cases n with
  | value v =>
      intro consts chunk c' ch' h
      cases v <;>
        simp only [compileExpression, Option.some.injEq, Prod.mk.injEq] at h <;>
        exact ⟨_, h.2.symm⟩
  | unary n operation =>
      intro consts chunk c' ch' h
      simp only [compileExpression] at h
      split at h
      next c1 ch1 hn =>
        simp only [Option.some.injEq, Prod.mk.injEq] at h
        obtain ⟨D, hD⟩ := compileExpression_append n _ _ _ _ hn
        exact append_chunk_ex h.2 hD
      next => exact absurd h (by simp)
  | binary l r operator =>
      intro consts chunk c' ch' h
      simp only [compileExpression] at h
      split at h
      next c1 ch1 hl =>
        split at h
        next c2 ch2 hr =>
          simp only [Option.some.injEq, Prod.mk.injEq] at h
          obtain ⟨D1, hD1⟩ := compileExpression_append l _ _ _ _ hl
          obtain ⟨D2, hD2⟩ := compileExpression_append r _ _ _ _ hr
          exact append_chunk_ex h.2 (by rw [hD2, hD1, List.append_assoc])
        next => exact absurd h (by simp)
      next => exact absurd h (by simp)
  | functionCall name args =>
      intro consts chunk c' ch' h
      simp only [compileExpression] at h
      split at h
      next c2 ch2 ha =>
        simp only [Option.some.injEq, Prod.mk.injEq] at h
        obtain ⟨D, hD⟩ := compileArguments_append args _ _ _ _ ha
        exact append_chunk_ex h.2 hD
      next => exact absurd h (by simp)
  | primitiveFunctionCall name args =>
      intro consts chunk c' ch' h
      simp only [compileExpression] at h
      split at h
      next c2 ch2 ha =>
        simp only [Option.some.injEq, Prod.mk.injEq] at h
        obtain ⟨D, hD⟩ := compileArguments_append args _ _ _ _ ha
        exact append_chunk_ex h.2 hD
      next => exact absurd h (by simp)
  | ret n => intro consts chunk c' ch' h; exact absurd h (by simp [compileExpression])
  | retNone => intro consts chunk c' ch' h; exact absurd h (by simp [compileExpression])
  | function name params body coroutine =>
      intro consts chunk c' ch' h; exact absurd h (by simp [compileExpression])
  | whileLoop cond body =>
      intro consts chunk c' ch' h; exact absurd h (by simp [compileExpression])
  | variableDeclr name v =>
      intro consts chunk c' ch' h; exact absurd h (by simp [compileExpression])
  | variableAssignment name v =>
      intro consts chunk c' ch' h; exact absurd h (by simp [compileExpression])

theorem compileArguments_append (args : NodeList) :
    ∀ consts chunk c' ch', compileArguments consts chunk args = some (c', ch') →
      ∃ D, ch' = chunk ++ D := by
  cases args with
  | nil =>
      intro consts chunk c' ch' h
      simp only [compileArguments, Option.some.injEq, Prod.mk.injEq] at h
      exact ⟨[], by simp [← h.2]⟩
  | cons n t =>
      intro consts chunk c' ch' h
      simp only [compileArguments] at h
      split at h
      next c1 ch1 hn =>
        obtain ⟨D1, hD1⟩ := compileExpression_append n _ _ _ _ hn
        obtain ⟨D2, hD2⟩ := compileArguments_append t _ _ _ _ h
        exact ⟨D1 ++ D2, by rw [hD2, hD1, List.append_assoc]⟩
      next => exact absurd h (by simp)

theorem compileNode_append (n : Node) :
    ∀ consts chunk c' ch', compileNode consts chunk n = some (c', ch') →
      ∃ D, ch' = chunk ++ D := by
  cases n with
  | value v =>
      intro consts chunk c' ch' h
      exact compileExpression_append (.value v) _ _ _ _ h
  | unary n operation =>
      intro consts chunk c' ch' h
      exact compileExpression_append (.unary n operation) _ _ _ _ h
  | binary l r operator =>
      intro consts chunk c' ch' h
      exact compileExpression_append (.binary l r operator) _ _ _ _ h
  | functionCall name args =>
      intro consts chunk c' ch' h
      exact compileExpression_append (.functionCall name args) _ _ _ _ h
  | primitiveFunctionCall name args =>
      intro consts chunk c' ch' h
      exact compileExpression_append (.primitiveFunctionCall name args) _ _ _ _ h
  | ret n =>
      intro consts chunk c' ch' h
      simp only [compileNode] at h
      split at h
      next c1 ch1 hn =>
        simp only [Option.some.injEq, Prod.mk.injEq] at h
        obtain ⟨D, hD⟩ := compileExpression_append n _ _ _ _ hn
        exact append_chunk_ex h.2 hD
      next => exact absurd h (by simp)
  | retNone =>
      intro consts chunk c' ch' h
      simp only [compileNode, Option.some.injEq, Prod.mk.injEq] at h
      exact ⟨[.retNone], h.2.symm⟩
  | variableDeclr name v =>
      intro consts chunk c' ch' h
      simp only [compileNode] at h
      split at h
      next c1 ch1 hv =>
        simp only [Option.some.injEq, Prod.mk.injEq] at h
        obtain ⟨D, hD⟩ := compileExpression_append v _ _ _ _ hv
        exact append_chunk_ex h.2 hD
      next => exact absurd h (by simp)
  | variableAssignment name v =>
      intro consts chunk c' ch' h
      simp only [compileNode] at h
      split at h
      next c1 ch1 hv =>
        simp only [Option.some.injEq, Prod.mk.injEq] at h
        obtain ⟨D, hD⟩ := compileExpression_append v _ _ _ _ hv
        exact append_chunk_ex h.2 hD
      next => exact absurd h (by simp)
  | function name params body coroutine =>
      intro consts chunk c' ch' h
      simp only [compileNode] at h
      split at h
      next c1 code hb =>
        simp only [Option.some.injEq, Prod.mk.injEq] at h
        exact ⟨_, h.2.symm⟩
      next => exact absurd h (by simp)
  | whileLoop cond body =>
      intro consts chunk c' ch' h
      simp only [compileNode] at h
      split at h
      next c1 ch1 hc =>
        split at h
        next c2 ch3 hb =>
          simp only [Option.some.injEq, Prod.mk.injEq] at h
          obtain ⟨D1, hD1⟩ := compileExpression_append cond _ _ _ _ hc
          obtain ⟨D2, hD2⟩ := compileBody_append body _ _ _ _ hb
          have hch3 : ch3 = chunk ++ (D1 ++ Instruction.jumpF 0 :: D2) := by
            rw [hD2, hD1]; simp
          have hidx : (ch1 ++ [Instruction.jumpF 0]).length - 1
              = chunk.length + D1.length := by
            rw [hD1]; simp
          refine ⟨(D1 ++ Instruction.jumpF 0 :: (D2 ++ [Instruction.jump chunk.length])).set
              D1.length
              (Instruction.jumpF ((ch3 ++ [Instruction.jump chunk.length]).length)), ?_⟩
          rw [← h.2, hidx, hch3]
          rw [show (chunk ++ (D1 ++ Instruction.jumpF 0 :: D2))
                ++ [Instruction.jump chunk.length]
              = chunk ++ (D1 ++ Instruction.jumpF 0 :: (D2 ++ [Instruction.jump chunk.length]))
            by simp]
          rw [set_append_ge]
        next => exact absurd h (by simp)
      next => exact absurd h (by simp)

theorem compileBody_append (body : NodeList) :
    ∀ consts chunk c' ch', compileBody consts chunk body = some (c', ch') →
      ∃ D, ch' = chunk ++ D := by
  cases body with
  | nil =>
      intro consts chunk c' ch' h
      simp only [compileBody, Option.some.injEq, Prod.mk.injEq] at h
      exact ⟨[], by simp [← h.2]⟩
  | cons n t =>
      intro consts chunk c' ch' h
      simp only [compileBody] at h
      split at h
      next c1 ch1 hn =>
        obtain ⟨D1, hD1⟩ := compileNode_append n _ _ _ _ hn
        obtain ⟨D2, hD2⟩ := compileBody_append t _ _ _ _ h
        exact ⟨D1 ++ D2, by rw [hD2, hD1, List.append_assoc]⟩
      next => exact absurd h (by simp)
end

/-- Shape of the `Node::WhileLoop` lowering (`lacec.rs` lines 166–179):
condition code, a backpatched `JumpF` to one past the loop, the body,
and a `Jump` back to the start of the condition. -/
theorem compileNode_while_shape {consts : List Value} {chunk : List Instruction}
    {cond : Node} {body : NodeList} {consts' : List Value} {code : List Instruction}
    (h : compileNode consts chunk (.whileLoop cond body) = some (consts', code)) :
    ∃ c1 C B,
      compileExpression consts chunk cond = some (c1, chunk ++ C) ∧
      compileBody c1 (chunk ++ C ++ [.jumpF 0]) body
        = some (consts', chunk ++ C ++ [.jumpF 0] ++ B) ∧
      code = chunk ++ C
          ++ [.jumpF (chunk.length + C.length + 1 + B.length + 1)]
          ++ B ++ [.jump chunk.length] := by
  simp only [compileNode] at h
  split at h
  next c1 ch1 hc =>
    split at h
    next c2 ch3 hb =>
      simp only [Option.some.injEq, Prod.mk.injEq] at h
      obtain ⟨C, hC⟩ := compileExpression_append cond _ _ _ _ hc
      obtain ⟨B, hB⟩ := compileBody_append body _ _ _ _ hb
      subst hC
      refine ⟨c1, C, B, hc, h.1 ▸ hB ▸ hb, ?_⟩
      rw [← h.2, hB]
      have hidx : ((chunk ++ C) ++ [Instruction.jumpF 0]).length - 1
          = (chunk ++ C).length := by simp
      rw [hidx]
      rw [show (((chunk ++ C) ++ [Instruction.jumpF 0]) ++ B)
            ++ [Instruction.jump chunk.length]
          = (chunk ++ C)
            ++ Instruction.jumpF 0 :: (B ++ [Instruction.jump chunk.length]) by simp]
      rw [set_append_len]
      have hlen : ((chunk ++ C)
            ++ Instruction.jumpF 0 :: (B ++ [Instruction.jump chunk.length])).length
          = chunk.length + C.length + 1 + B.length + 1 := by simp; omega
      rw [hlen]
      simp
    next => exact absurd h (by simp)
  next => exact absurd h (by simp)

end Lace

theorem strRepeat_length (s : String) (n : Nat) :
    (strRepeat s n).length = n * s.length := by
  induction n with
  | zero => simp [strRepeat]
  | succ m ih =>
      show (s ++ strRepeat s m).length = _
      rw [String.length_append, ih]
      ring

theorem popN_length {α : Type} {n : Nat} {stack raw rest : List α}
    (h : popN n stack = some (raw, rest)) : raw.length = n := by
  induction n generalizing stack raw rest with
  | zero =>
      simp only [popN, Option.some.injEq, Prod.mk.injEq] at h
      rw [← h.1]
      rfl
  | succ m ih =>
      cases stack with
      | nil => simp [popN] at h
      | cons v stack2 =>
          simp only [popN] at h
          cases hm : popN m stack2 with
          | none => rw [hm] at h; simp at h
          | some p =>
              obtain ⟨raw2, rest2⟩ := p
              rw [hm] at h
              simp only [Option.map_some', Option.some.injEq, Prod.mk.injEq] at h
              rw [← h.1]
              simp [ih hm]

namespace Lace

theorem step_exit {consts : List Value} {code : List Instruction} {ip : Nat} {st : St}
    (h : code[ip]? = Option.none) (fuel : Nat) :
    runL consts (fuel + 1) code ip st
      = some (.ok .none { st with callStack := st.callStack.dropLast }) := by
  simp only [runL, h]

/-- `position` finds exactly the first structurally equal element. -/
theorem position_none_iff (pool : List Value) (v : Value) :
    position pool v = Option.none ↔ v ∉ pool := by
  induction pool with
  | nil => simp [position]
  | cons x xs ih =>
      simp only [position]
      by_cases hx : x = v
      · simp [hx]
      · simp only [if_neg hx, List.mem_cons]
        constructor
        · intro h hc
          rcases hc with hc | hc
          · exact hx hc.symm
          · exact (ih.mp (by simpa using h)) hc
        · intro h
          have : v ∉ xs := fun hc => h (Or.inr hc)
          simp [ih.mpr this]

theorem position_some_spec (pool : List Value) (v : Value) :
    ∀ i, position pool v = some i →
      pool[i]? = some v ∧ ∀ j, j < i → pool[j]? ≠ some v := by
  induction pool with
  | nil => intro i h; exact absurd h (by simp [position])
  | cons x xs ih =>
      intro i h
      simp only [position] at h
      by_cases hx : x = v
      · rw [if_pos hx] at h
        obtain rfl : (0 : Nat) = i := by simpa using h
        simp [hx]
      · rw [if_neg hx] at h
        match hm : position xs v with
        | Option.none => rw [hm] at h; exact absurd h (by simp)
        | some k =>
            rw [hm] at h
            obtain rfl : k + 1 = i := by simpa using h
            obtain ⟨h1, h2⟩ := ih k hm
            refine ⟨by simpa using h1, ?_⟩
            intro j hj
            match j with
            | 0 => simpa using fun hc => hx hc
            | j + 1 =>
                have := h2 j (by omega)
                simpa using this

end Lace

/-- C1.  The claim: for every compiled if/elseif/else chain exactly one
branch body executes — the first candidate (in source order) whose
condition is truthy, or the else body — because the patch pass points
every "to-next-candidate" placeholder at the *following* candidate; and
the program `if false { return 1; } else if true { return 2; } else
{ return 3; }` yields `Integer(2)`.  The code (`from_hir`, `hir.rs`
lines 149–203) disagrees: the patch loop pre-increments its block index,
so the first guard's placeholder is patched to `block_offsets[1]`
(offset 12, the start of the *else* body) instead of `block_offsets[0]`
(offset 6, the start of the `else if true` candidate), and the last
guard's placeholder is patched to `end`, skipping the else body.
Executing the lowered program therefore returns `Number 3`, not 2, as
this evaluation shows — the `elseif`'s truthy condition is never even
tested. -/
theorem c1_if_chain_patch_off_by_one :
    Hlvm.fromHir
      (.cons (.push (.bool Bool.false))
        (.cons (.ifStatement
          (.cons (.push (.number 1)) (.cons .retValue .nil))
          (.some (.cons (.cons (.push (.bool Bool.true)) .nil)
                        (.cons (.push (.number 2)) (.cons .retValue .nil))
                        .nil))
          (.cons (.push (.number 3)) (.cons .retValue .nil)))
          .nil))
      = [.push (.bool Bool.false), .not, .jumpIf 12,
         .push (.number 1), .retValue, .jump 14,
         .push (.bool Bool.true), .not, .jumpIf 14,
         .push (.number 2), .retValue, .jump 14,
         .push (.number 3), .retValue]
    ∧ Hlvm.execute 20
        (Hlvm.fromHir
          (.cons (.push (.bool Bool.false))
            (.cons (.ifStatement
              (.cons (.push (.number 1)) (.cons .retValue .nil))
              (.some (.cons (.cons (.push (.bool Bool.true)) .nil)
                            (.cons (.push (.number 2)) (.cons .retValue .nil))
                            .nil))
              (.cons (.push (.number 3)) (.cons .retValue .nil)))
              .nil)))
        0 []
      = some (.ok (.number 3)) := by
  exact ⟨by decide, by decide⟩

/-- C3.  Integer values of the `src/` generation are 64-bit signed
(`src/opcode.rs`: `Integer(i64)`) and addition is checked
(`src/vm/arithmetic.rs` lines 6–27): for all `a`, `b` representable as
`i64`, if `a + b` is representable then both the `add` operation and a
VM run of the compiled expression (`LoadConst a; LoadConst b; Add`)
produce `Integer (a + b)`; otherwise both raise the integer-overflow
runtime error — never a silent wraparound and never a crash. -/
theorem c3_integer_addition_checked (a b : Int) (ha : inI64 a) (hb : inI64 b) :
    (inI64 (a + b) →
      Svm.add (.integer a) (.integer b) = .ok (.integer (a + b)) ∧
      ∀ fuel, Svm.runS (fuel + 4) [.loadConst 0, .loadConst 1, .add]
          (.mk [.loadConst 0, .loadConst 1, .add] [.integer a, .integer b] [] [] "main") [] [] []
        = ([], some (.done [.integer (a + b)] []))) ∧
    (¬ inI64 (a + b) →
      Svm.add (.integer a) (.integer b) = .error "Integer addition resulted in overflow" ∧
      ∀ fuel, Svm.runS (fuel + 4) [.loadConst 0, .loadConst 1, .add]
          (.mk [.loadConst 0, .loadConst 1, .add] [.integer a, .integer b] [] [] "main") [] [] []
        = ([], some (.rerror "Integer addition resulted in overflow"))) := by
  constructor
  · intro hab
    have hadd : Svm.add (.integer a) (.integer b) = .ok (.integer (a + b)) := by
      simp [Svm.add, Svm.checkedAdd64, hab]
    refine ⟨hadd, fun fuel => ?_⟩
    rw [show fuel + 4 = (((fuel + 1) + 1) + 1) + 1 by omega]
    simp [Svm.runS, Svm.CodeObject.constants, Svm.operate, hadd]
  · intro hab
    have hadd : Svm.add (.integer a) (.integer b)
        = .error "Integer addition resulted in overflow" := by
      simp [Svm.add, Svm.checkedAdd64, hab]
    refine ⟨hadd, fun fuel => ?_⟩
    rw [show fuel + 4 = (((fuel + 1) + 1) + 1) + 1 by omega]
    simp [Svm.runS, Svm.CodeObject.constants, Svm.operate, hadd]

/-- Closed witness for C3: `1 + 2` evaluates to `Integer 3`, and
`(2^63 - 1) + 1` raises the overflow error. -/
theorem c3_integer_addition_checked_witness :
    Svm.add (.integer 1) (.integer 2) = .ok (.integer 3) ∧
    Svm.add (.integer (2 ^ 63 - 1)) (.integer 1)
      = .error "Integer addition resulted in overflow" := by
  refine ⟨((c3_integer_addition_checked 1 2 (by decide) (by decide)).1 (by decide)).1, ?_⟩
  exact ((c3_integer_addition_checked (2 ^ 63 - 1) 1 (by decide) (by decide)).2 (by decide)).1

/-- C8.  The claim: `"ab" * 3` evaluates to `"ababab"` (true), and
`"x" * -1` yields a RuntimeError, not a crash (false on the code).
`mul` (`src/vm/arithmetic.rs` line 53) computes `av.repeat(*bv as usize)`
with no sign check: for `bv = -1` the `as usize` cast wraps to
`2^64 - 1`, so the code path taken is the string-repetition success
path — it attempts to materialise a string of `2^64 - 1` bytes, which
on a real machine is an allocation failure/abort (a crash), and on no
path a `RuntimeError`.  The second conjunct exhibits the result of the
taken path (an `ok`, not an `error`), and the third computes its
impossible length. -/
theorem c8_negative_string_repeat_is_crash_path :
    Svm.mul (.string "ab") (.integer 3) = .ok (.string "ababab") ∧
    Svm.mul (.string "x") (.integer (-1))
      = .ok (.string (strRepeat "x" (2 ^ 64 - 1))) ∧
    (strRepeat "x" (2 ^ 64 - 1)).length = 2 ^ 64 - 1 := by
  refine ⟨by rfl, ?_, ?_⟩
  · show Except.ok (Svm.Value.string (strRepeat "x" (usizeOfInt (-1)))) = _
    rw [show usizeOfInt (-1) = 2 ^ 64 - 1 from by decide]
  · rw [strRepeat_length]
    norm_num [String.length]

/-- C10.  `exponentiate` (`src/vm/value/operation.rs` lines 6–19, `i32`,
and the identical `i64` copy in `src/vm/common.rs` lines 24–37) starts
from the base and runs `for _ in 1..exp` checked multiplications — that
is `max (exp - 1) 0` of them — so for every exponent `e ≤ 1` (including
`0` and negatives) `a ** e` evaluates to `Integer a` itself, not 1 and
not an error; and whenever an intermediate checked multiplication
overflows, `pow` (`src/vm/arithmetic.rs` lines 142–153) raises the
integer-exponentiation overflow error. -/
theorem c10_pow_repeated_checked_mul (a e : Int) :
    (e ≤ 1 →
      Svm.exponentiate a e = some a ∧
      Svm.exponentiate32 a e = some a ∧
      Svm.pow (.integer a) (.integer e) = .ok (.integer a)) ∧
    (Svm.exponentiate a e = Option.none →
      Svm.pow (.integer a) (.integer e)
        = .error "Integer exponentiation resulted in overflow") := by
  constructor
  · intro he
    have h0 : (e - 1).toNat = 0 := by omega
    refine ⟨?_, ?_, ?_⟩
    · unfold Svm.exponentiate; rw [h0]; rfl
    · unfold Svm.exponentiate32; rw [h0]; rfl
    · show (match Svm.exponentiate a e with
        | some int => Except.ok (Svm.Value.integer int)
        | Option.none => Except.error "Integer exponentiation resulted in overflow") = _
      unfold Svm.exponentiate
      rw [h0]
      rfl
  · intro hn
    show (match Svm.exponentiate a e with
      | some int => Except.ok (Svm.Value.integer int)
      | Option.none => Except.error "Integer exponentiation resulted in overflow") = _
    rw [hn]

/-- Closed witness for C10: `5 ** 0 = 5`, `5 ** (-7) = 5`, and
`(2^32) ** 2` overflows the 64-bit checked multiplication and raises. -/
theorem c10_pow_repeated_checked_mul_witness :
    Svm.pow (.integer 5) (.integer 0) = .ok (.integer 5) ∧
    Svm.pow (.integer 5) (.integer (-7)) = .ok (.integer 5) ∧
    Svm.pow (.integer (2 ^ 32)) (.integer 2)
      = .error "Integer exponentiation resulted in overflow" := by
  refine ⟨((c10_pow_repeated_checked_mul 5 0).1 (by decide)).2.2,
    ((c10_pow_repeated_checked_mul 5 (-7)).1 (by decide)).2.2,
    (c10_pow_repeated_checked_mul (2 ^ 32) 2).2 (by rfl)⟩

theorem svm_position_some_spec (constants : List Svm.Value) (value : Svm.Value) :
    ∀ i, Svm.position constants value = some i →
      (∃ x, constants[i]? = some x ∧ Svm.Value.beq x value = Bool.true) ∧
      ∀ j, j < i → ∀ x, constants[j]? = some x → Svm.Value.beq x value = Bool.false := by
  induction constants with
  | nil => intro i h; exact absurd h (by simp [Svm.position])
  | cons x xs ih =>
      intro i h
      simp only [Svm.position] at h
      by_cases hx : Svm.Value.beq x value = Bool.true
      · rw [if_pos hx] at h
        obtain rfl : (0 : Nat) = i := by simpa using h
        exact ⟨⟨x, by simp, hx⟩, fun j hj => by omega⟩
      · rw [if_neg hx] at h
        match hm : Svm.position xs value with
        | Option.none => rw [hm] at h; exact absurd h (by simp)
        | some k =>
            rw [hm] at h
            obtain rfl : k + 1 = i := by simpa using h
            obtain ⟨h1, h2⟩ := ih k hm
            refine ⟨by simpa using h1, ?_⟩
            intro j hj y hy
            match j with
            | 0 =>
                simp only [List.getElem?_cons_zero, Option.some.injEq] at hy
                subst hy
                simpa using hx
            | j + 1 => exact h2 j (by omega) y (by simpa using hy)

theorem svm_position_none_spec (constants : List Svm.Value) (value : Svm.Value) :
    Svm.position constants value = Option.none →
      ∀ x ∈ constants, Svm.Value.beq x value = Bool.false := by
  induction constants with
  | nil => intro _ x hx; exact absurd hx (by simp)
  | cons y ys ih =>
      intro h x hx
      simp only [Svm.position] at h
      by_cases hy : Svm.Value.beq y value = Bool.true
      · rw [if_pos hy] at h; exact absurd h (by simp)
      · rw [if_neg hy] at h
        rcases List.mem_cons.mp hx with rfl | hx2
        · simpa using hy
        · match hm : Svm.position ys value with
          | some k => rw [hm] at h; exact absurd h (by simp)
          | Option.none => exact ih hm x hx2

/-- C5.  `add_constant` is a deduplicating append: if a structurally
equal value is already in the pool it returns the first such index and
leaves the pool unchanged, otherwise it appends the value and returns
the new last index (proved for the `lacec` `Constants::add_constant` and
the `src/` `CodeObject::add_constant`, which implement the identical
algorithm); consequently compiling the same AST twice produces identical
results — the compiler is a pure deterministic function of the AST. -/
theorem c5_add_constant_dedup :
    (∀ (pool : List Lace.Value) (v : Lace.Value),
      (v ∈ pool →
        ∃ i, Lace.addConstant pool v = (i, pool) ∧ pool[i]? = some v ∧
          ∀ j, j < i → pool[j]? ≠ some v) ∧
      (v ∉ pool → Lace.addConstant pool v = (pool.length, pool ++ [v]))) ∧
    (∀ (constants : List Svm.Value) (value : Svm.Value),
      (∀ i, Svm.position constants value = some i →
        Svm.add_constant constants value = (i, constants) ∧
        (∃ x, constants[i]? = some x ∧ Svm.Value.beq x value = Bool.true) ∧
        ∀ j, j < i → ∀ x, constants[j]? = some x →
          Svm.Value.beq x value = Bool.false) ∧
      (Svm.position constants value = Option.none →
        Svm.add_constant constants value = (constants.length, constants ++ [value]) ∧
        ∀ x ∈ constants, Svm.Value.beq x value = Bool.false)) ∧
    (∀ source : Lace.NodeList, Lace.compileProgram source = Lace.compileProgram source) := by
  refine ⟨fun pool v => ⟨?_, ?_⟩, fun constants value => ⟨?_, ?_⟩, fun _ => rfl⟩
  · intro hmem
    match hp : Lace.position pool v with
    | Option.none => exact absurd hmem ((Lace.position_none_iff pool v).mp hp)
    | some i =>
        obtain ⟨h1, h2⟩ := Lace.position_some_spec pool v i hp
        exact ⟨i, by simp [Lace.addConstant, hp], h1, h2⟩
  · intro hmem
    have hp : Lace.position pool v = Option.none := (Lace.position_none_iff pool v).mpr hmem
    simp [Lace.addConstant, hp]
  · intro i hp
    obtain ⟨h1, h2⟩ := svm_position_some_spec constants value i hp
    exact ⟨by simp [Svm.add_constant, hp], h1, h2⟩
  · intro hp
    exact ⟨by simp [Svm.add_constant, hp], svm_position_none_spec constants value hp⟩

/-- Closed witness for C5: on the pool `[Number 7, Number 9]`, adding
`Number 9` returns index 1 and leaves the pool unchanged, adding
`Number 4` appends at index 2; the compiled form of `return 7 - 7;`
dedups the two literals into one pool slot. -/
theorem c5_add_constant_dedup_witness :
    Lace.addConstant [.number 7, .number 9] (.number 9)
      = (1, [.number 7, .number 9]) ∧
    Lace.addConstant [.number 7, .number 9] (.number 4)
      = (2, [.number 7, .number 9, .number 4]) ∧
    Svm.add_constant [.integer 7] (.integer 7) = (0, [.integer 7]) ∧
    Lace.compileProgram
        (.cons (.ret (.binary (.value (.number 7)) (.value (.number 7)) .opSub)) .nil)
      = some ([.number 7], [.loadConstant 0, .loadConstant 0, .sub, .ret]) := by
  refine ⟨?_, ?_, ?_, by decide⟩
  · obtain ⟨i, h1, h2, _⟩ :=
      (c5_add_constant_dedup.1 [.number 7, .number 9] (.number 9)).1 (by decide)
    have : i = 1 := by
      match i, h2 with
      | 1, _ => rfl
      | 0, hc => exact absurd hc (by decide)
      | n + 2, hc => exact absurd hc (by simp)
    rw [← this]
    exact h1
  · exact (c5_add_constant_dedup.1 [.number 7, .number 9] (.number 4)).2 (by decide)
  · exact ((c5_add_constant_dedup.2.1 [.integer 7] (.integer 7)).1 0 (by rfl)).1

/-- C6 counterexample.  The claim says an `Integer` is truthy iff it is
nonzero, so `Not` on `Integer (-1)` (nonzero, hence truthy) must push
`false`.  The code (`Value::istruthy`, `lacec/src/common.rs` line 121)
tests strict positivity (`int > 0`): `istruthy (-1)` is `false`, and the
VM's `LogicalNot` on a stack holding `Number (-1)` pushes `True`. -/
theorem c6_truthiness_counterexample :
    Lace.Value.istruthy (.number (-1)) = some Bool.false ∧
    Lace.runL [] 2 [.logicalNot] 0 ⟨[.number (-1)], [⟨[]⟩], [], []⟩
      = some (.ok .none ⟨[Lace.Value.true], [], [0], []⟩) := by
  exact ⟨by decide, by decide⟩

/-- C6 amended.  For every value `v` on which truthiness is defined, the
`LogicalNot` instruction pops `v` and pushes the logical complement of
`v`'s truthiness, where truthiness is: `Bool` identity; an `Integer`,
`Float` or `Byte` is truthy iff it is strictly positive (so negative
numbers are falsy); a `String`, `Array` or `Function` body is truthy iff
nonempty; `None` is falsy (`istruthy` panics on the private `Identifier`
variant, and `Not` with it). -/
theorem c6_not_pushes_complement_of_truthiness :
    (∀ n : Int, Lace.Value.istruthy (.number n) = some (decide (0 < n))) ∧
    (∀ q : Rat, Lace.Value.istruthy (.float q) = some (decide (0 < q))) ∧
    (∀ b : Int, Lace.Value.istruthy (.byte b) = some (decide (0 < b))) ∧
    (∀ s : String, Lace.Value.istruthy (.string s) = some (decide (0 < s.length))) ∧
    (∀ xs : Lace.ValueList,
      Lace.Value.istruthy (.array xs) = some (decide (0 < xs.length))) ∧
    Lace.Value.istruthy .true = some Bool.true ∧
    Lace.Value.istruthy .false = some Bool.false ∧
    Lace.Value.istruthy .none = some Bool.false ∧
    (∀ (consts : List Lace.Value) (code : List Lace.Instruction) (ip : Nat)
        (st : Lace.St) (v : Lace.Value) (rest : List Lace.Value) (b : Bool) (fuel : Nat),
      code[ip]? = some .logicalNot → st.stack = v :: rest → v.istruthy = some b →
      Lace.runL consts (fuel + 1) code ip st
        = Lace.runL consts fuel code (ip + 1)
            { st with stack := Lace.bool2value (!b) :: rest, trace := st.trace ++ [ip] }) := by
  refine ⟨fun n => rfl, fun q => rfl, fun b => rfl, fun s => rfl, fun xs => rfl,
    rfl, rfl, rfl, ?_⟩
  intro consts code ip st v rest b fuel h hs hv
  exact Lace.step_logicalNot h hs hv fuel

/-- Closed witness for the amended C6: `Not` on `Number 5` (truthy)
pushes `False`. -/
theorem c6_not_pushes_complement_of_truthiness_witness :
    Lace.runL [] 2 [.logicalNot] 0 ⟨[.number 5], [⟨[]⟩], [], []⟩
      = some (.ok .none ⟨[Lace.Value.false], [], [0], []⟩) := by
  rw [show (2 : Nat) = 1 + 1 from rfl]
  rw [c6_not_pushes_complement_of_truthiness.2.2.2.2.2.2.2.2
    [] [.logicalNot] 0 ⟨[.number 5], [⟨[]⟩], [], []⟩ (.number 5) [] Bool.true 1
    (by decide) (by decide) (by decide)]
  decide

/-- C7.  `LoadVariable(name)` (`lace/src/vm.rs` lines 52–68) consults
only the current (last) frame's locals and then the global (first)
frame's locals, in that order — the intermediate frames `ms` are
arbitrary here and never searched; a name bound in the current frame is
pushed unchanged, else the global binding is pushed unchanged, else the
run stops with the unbound-variable runtime error. -/
theorem c7_load_variable_resolution
    (consts : List Lace.Value) (code : List Lace.Instruction) (ip idx : Nat)
    (st : Lace.St) (name : String) (g cur : Lace.Frame) (ms : List Lace.Frame)
    (fuel : Nat)
    (hcode : code[ip]? = some (.loadVariable idx))
    (hconst : consts[idx]? = some (.identifier name))
    (hstack : st.callStack = g :: ms ++ [cur]) :
    (∀ v, List.lookup name cur.locals = some v →
      Lace.runL consts (fuel + 1) code ip st
        = Lace.runL consts fuel code (ip + 1)
            { st with stack := v :: st.stack, trace := st.trace ++ [ip] }) ∧
    (List.lookup name cur.locals = Option.none →
      (∀ v, List.lookup name g.locals = some v →
        Lace.runL consts (fuel + 1) code ip st
          = Lace.runL consts fuel code (ip + 1)
              { st with stack := v :: st.stack, trace := st.trace ++ [ip] }) ∧
      (List.lookup name g.locals = Option.none →
        Lace.runL consts (fuel + 1) code ip st
          = some (.rerror s!"variable {name} not found."))) := by
  have hlast : st.callStack.getLast? = some cur := by
    rw [hstack, show g :: ms ++ [cur] = (g :: ms) ++ [cur] from rfl]
    exact List.getLast?_concat _
  have hhead : st.callStack.head? = some g := by rw [hstack]; rfl
  refine ⟨?_, fun hcur => ⟨?_, fun hg => ?_⟩⟩
  · intro v hv
    simp only [Lace.runL, hcode, hconst, Lace.Value.extract, hlast, hv]
  · intro v hv
    simp only [Lace.runL, hcode, hconst, Lace.Value.extract, hlast, hcur, hhead, hv]
  · simp only [Lace.runL, hcode, hconst, Lace.Value.extract, hlast, hcur, hhead, hg]

/-- Closed witness for C7: with globals `x = 1`, an intermediate frame
binding `x = 99`, and a current frame not binding `x`, loading `x`
pushes the global value 1 — the intermediate binding is ignored; with
`x` absent from the globals as well, the run stops with the
unbound-variable error. -/
theorem c7_load_variable_resolution_witness :
    Lace.runL [.identifier "x"] 2 [.loadVariable 0] 0
        ⟨[], [⟨[("x", .number 1)]⟩, ⟨[("x", .number 99)]⟩, ⟨[]⟩], [], []⟩
      = some (.ok .none
          ⟨[.number 1], [⟨[("x", .number 1)]⟩, ⟨[("x", .number 99)]⟩], [0], []⟩) ∧
    Lace.runL [.identifier "x"] 2 [.loadVariable 0] 0
        ⟨[], [⟨[]⟩, ⟨[("x", .number 99)]⟩, ⟨[]⟩], [], []⟩
      = some (.rerror "variable x not found.") := by
  constructor
  · rw [show (2 : Nat) = 1 + 1 from rfl]
    rw [((c7_load_variable_resolution [.identifier "x"] [.loadVariable 0] 0 0
        ⟨[], [⟨[("x", .number 1)]⟩, ⟨[("x", .number 99)]⟩, ⟨[]⟩], [], []⟩ "x"
        ⟨[("x", .number 1)]⟩ ⟨[]⟩ [⟨[("x", .number 99)]⟩] 1
        (by decide) (by decide) rfl).2 (by decide)).1 (.number 1) (by decide)]
    decide
  · rw [show (2 : Nat) = 1 + 1 from rfl]
    exact ((c7_load_variable_resolution [.identifier "x"] [.loadVariable 0] 0 0
        ⟨[], [⟨[]⟩, ⟨[("x", .number 99)]⟩, ⟨[]⟩], [], []⟩ "x"
        ⟨[]⟩ ⟨[]⟩ [⟨[("x", .number 99)]⟩] 1
        (by decide) (by decide) rfl).2 (by decide)).2 (by decide)

/-- C4.  Calling a user-defined function with the wrong number of
arguments (`src/vm/mod.rs` lines 99–144): after popping the arguments
and resolving the callee, the arity check `arguments.len() !=
func.parameters.len()` raises the arity-mismatch runtime error carrying
expected and got — and the run produces no output and stops there, for
*every* callee body `ccode` (in particular one full of `writeln`
effects), so the callee never (even partially) executes. -/
theorem c4_arity_mismatch_guards_callee
    (fuel idx argc : Nat) (co : Svm.CodeObject) (rest : List Svm.OpCode)
    (ccode : List Svm.OpCode) (cconsts : List Svm.Value)
    (cparams : List (String × Bool)) (cfuncs : List (String × Svm.CodeObject))
    (cfile name : String)
    (stack raw stack2 : List Svm.Value) (vars : List (String × Svm.Value))
    (gf : List (String × Svm.CodeObject))
    (hconst : co.constants[idx]? = some (.string name))
    (hres : List.lookup name co.functions
      = some (.mk ccode cconsts cparams cfuncs cfile))
    (hpop : popN argc stack = some (raw, stack2))
    (hmm : cparams.length ≠ argc) :
    Svm.runS (fuel + 1) (.callFunction idx argc :: rest) co vars gf stack
      = ([], some (.rerror (Svm.arityMsg name cparams.length argc))) := by
  have hlen : raw.reverse.length = argc := by
    rw [List.length_reverse]; exact popN_length hpop
  simp only [Svm.runS, hconst, hpop, hres, Svm.CodeObject.parameters, hlen]
  rw [if_pos (by omega)]

/-- Closed witness for C4: a callee whose body is a `writeln` call and
which declares one parameter, called with zero arguments: the run yields
the arity error "expected 1, got 0" and the output trace is empty (the
callee's `writeln` never fired; with the correct arity the same callee
does fire it). -/
theorem c4_arity_mismatch_guards_callee_witness :
    Svm.runS 9 [.callFunction 0 0]
        (.mk [.callFunction 0 0] [.string "g"] []
          [("g", .mk [.callPrim 0 0] [.string "writeln"] [("x", Bool.false)] [] "f")] "f")
        [] [] []
      = ([], some (.rerror "Function g expected 1 arguments, got 0.")) ∧
    Svm.runS 9 [.loadConst 1, .callFunction 0 1]
        (.mk [.loadConst 1, .callFunction 0 1] [.string "g", .integer 7] []
          [("g", .mk [.callPrim 0 0] [.string "writeln"] [("x", Bool.false)] [] "f")] "f")
        [] [] []
      = ([[]], some (.done [.none] [])) := by
  constructor
  · rw [show (9 : Nat) = 8 + 1 from rfl]
    exact c4_arity_mismatch_guards_callee 8 0 0 _ []
      [.callPrim 0 0] [.string "writeln"] [("x", Bool.false)] [] "f" "g"
      [] [] [] [] [] (by rfl) (by rfl) (by rfl) (by decide)
  · rfl

/-- C9.  Operand order: (1) the compiler lowers the left operand of a
binary expression before the right one, then the opcode
(`compile_expression`, `lacec.rs` lines 55–81); (2) the VM pops the
right operand first and the left second (`lace/src/vm.rs` — here for
`Sub`: a stack `b :: a :: rest` in pop order yields `a.sub b`); (3)
consequently the compiled expression `a - b` evaluates to the left value
minus the right value, and `a / b` divides left by right. -/
theorem c9_operand_order :
    (∀ (consts : List Lace.Value) (chunk : List Lace.Instruction)
        (l r : Lace.Node) (op : Lace.Token) (c2 : List Lace.Value)
        (ch2 : List Lace.Instruction),
      Lace.compileExpression consts chunk (.binary l r op) = some (c2, ch2) →
      ∃ c1 CL CR,
        Lace.compileExpression consts chunk l = some (c1, chunk ++ CL) ∧
        Lace.compileExpression c1 (chunk ++ CL) r = some (c2, chunk ++ CL ++ CR) ∧
        ch2 = chunk ++ CL ++ CR ++ [Lace.binInstr op]) ∧
    (∀ (consts : List Lace.Value) (code : List Lace.Instruction) (ip : Nat)
        (st : Lace.St) (a b res : Lace.Value) (rest : List Lace.Value) (fuel : Nat),
      code[ip]? = some .sub → st.stack = b :: a :: rest → a.sub b = some res →
      Lace.runL consts (fuel + 1) code ip st
        = Lace.runL consts fuel code (ip + 1)
            { st with stack := res :: rest, trace := st.trace ++ [ip] }) ∧
    (∀ a b : Int, inI32 a → inI32 b → inI32 (a - b) →
      ∃ (consts : List Lace.Value) (code : List Lace.Instruction),
        Lace.compileProgram
            (.cons (.binary (.value (.number a)) (.value (.number b)) .opSub) .nil)
          = some (consts, code) ∧
        ∀ fuel, ∃ st', Lace.runL consts (fuel + 4) code 0 ⟨[], [⟨[]⟩], [], []⟩
            = some (.ok .none st') ∧ st'.stack = [.number (a - b)]) ∧
    (∀ a b : Int, b ≠ 0 → ¬(a = -(2 ^ 31) ∧ b = -1) →
      ∃ (consts : List Lace.Value) (code : List Lace.Instruction),
        Lace.compileProgram
            (.cons (.binary (.value (.number a)) (.value (.number b)) .opDiv) .nil)
          = some (consts, code) ∧
        ∀ fuel, ∃ st', Lace.runL consts (fuel + 4) code 0 ⟨[], [⟨[]⟩], [], []⟩
            = some (.ok .none st') ∧ st'.stack = [.number (Int.tdiv a b)]) := by
  refine ⟨?_, ?_, ?_, ?_⟩
  · intro consts chunk l r op c2 ch2 h
    simp only [Lace.compileExpression] at h
    split at h
    next c1 ch1 hl =>
      split at h
      next c2' ch2' hr =>
        simp only [Option.some.injEq, Prod.mk.injEq] at h
        obtain ⟨D1, hD1⟩ := Lace.compileExpression_append l _ _ _ _ hl
        obtain ⟨D2, hD2⟩ := Lace.compileExpression_append r _ _ _ _ hr
        subst hD1
        have hch : ch2 = chunk ++ D1 ++ D2 ++ [Lace.binInstr op] := by
          rw [← h.2, hD2]
        exact ⟨c1, D1, D2, hl, h.1 ▸ hD2 ▸ hr, hch⟩
      next => exact absurd h (by simp)
    next => exact absurd h (by simp)
  · intro consts code ip st a b res rest fuel h hs hab
    exact Lace.step_sub h hs hab fuel
  · intro a b ha hb hsub
    by_cases hab : a = b
    · subst hab
      refine ⟨[.number a], [.loadConstant 0, .loadConstant 0, .sub], ?_, ?_⟩
      · simp [Lace.compileProgram, Lace.compileBody, Lace.compileNode,
          Lace.compileExpression, Lace.addConstant, Lace.position, Lace.binInstr]
      · intro fuel
        refine ⟨⟨[.number (a - a)], [], [0, 1, 2], []⟩, ?_, rfl⟩
        rw [show fuel + 4 = (((fuel + 1) + 1) + 1) + 1 by omega]
        simp [Lace.runL, Lace.binOp, Lace.Value.sub, wrap32_eq_of_inI32 hsub,
          show wrap32 0 = 0 from by decide]
    · refine ⟨[.number a, .number b], [.loadConstant 0, .loadConstant 1, .sub], ?_, ?_⟩
      · simp [Lace.compileProgram, Lace.compileBody, Lace.compileNode,
          Lace.compileExpression, Lace.addConstant, Lace.position, Lace.binInstr, hab]
      · intro fuel
        refine ⟨⟨[.number (a - b)], [], [0, 1, 2], []⟩, ?_, rfl⟩
        rw [show fuel + 4 = (((fuel + 1) + 1) + 1) + 1 by omega]
        simp [Lace.runL, Lace.binOp, Lace.Value.sub, wrap32_eq_of_inI32 hsub,
          show wrap32 0 = 0 from by decide]
  · intro a b hb0 hmin
    have hdiv : Lace.Value.div (.number a) (.number b)
        = some (.number (Int.tdiv a b)) := by
      simp only [Lace.Value.div]
      rw [if_neg (by tauto)]
    by_cases hab : a = b
    · subst hab
      refine ⟨[.number a], [.loadConstant 0, .loadConstant 0, .div], ?_, ?_⟩
      · simp [Lace.compileProgram, Lace.compileBody, Lace.compileNode,
          Lace.compileExpression, Lace.addConstant, Lace.position, Lace.binInstr]
      · intro fuel
        refine ⟨⟨[.number (Int.tdiv a a)], [], [0, 1, 2], []⟩, ?_, rfl⟩
        rw [show fuel + 4 = (((fuel + 1) + 1) + 1) + 1 by omega]
        simp [Lace.runL, Lace.binOp, hdiv]
    · refine ⟨[.number a, .number b], [.loadConstant 0, .loadConstant 1, .div], ?_, ?_⟩
      · simp [Lace.compileProgram, Lace.compileBody, Lace.compileNode,
          Lace.compileExpression, Lace.addConstant, Lace.position, Lace.binInstr, hab]
      · intro fuel
        refine ⟨⟨[.number (Int.tdiv a b)], [], [0, 1, 2], []⟩, ?_, rfl⟩
        rw [show fuel + 4 = (((fuel + 1) + 1) + 1) + 1 by omega]
        simp [Lace.runL, Lace.binOp, hdiv]

/-- Closed witness for C9: `7 - 3` compiles and runs to `Number 4`
(left minus right, not `-4`), and `7 / 2` to `Number 3` (left over
right, truncating). -/
theorem c9_operand_order_witness :
    Lace.runL [.number 7, .number 3] 9 [.loadConstant 0, .loadConstant 1, .sub] 0
        ⟨[], [⟨[]⟩], [], []⟩
      = some (.ok .none ⟨[.number 4], [], [0, 1, 2], []⟩) ∧
    Lace.runL [.number 7, .number 2] 9 [.loadConstant 0, .loadConstant 1, .div] 0
        ⟨[], [⟨[]⟩], [], []⟩
      = some (.ok .none ⟨[.number 3], [], [0, 1, 2], []⟩) := by
  constructor
  · obtain ⟨consts, code, hcomp, hrun⟩ :=
      c9_operand_order.2.2.1 7 3 (by decide) (by decide) (by decide)
    have hc : consts = [Lace.Value.number 7, Lace.Value.number 3] ∧
        code = [Lace.Instruction.loadConstant 0, .loadConstant 1, .sub] := by
      have : Lace.compileProgram
          (.cons (.binary (.value (.number 7)) (.value (.number 3)) .opSub) .nil)
        = some ([Lace.Value.number 7, Lace.Value.number 3],
            [Lace.Instruction.loadConstant 0, .loadConstant 1, .sub]) := by decide
      rw [this] at hcomp
      simpa [And.comm] using hcomp.symm
    obtain ⟨st', h1, h2⟩ := hrun 5
    obtain ⟨rfl, rfl⟩ := hc
    rw [show (9 : Nat) = 5 + 4 from rfl, h1]
    have : st' = ⟨[.number 4], [], [0, 1, 2], []⟩ := by
      have h3 := h1
      rw [show Lace.runL [Lace.Value.number 7, Lace.Value.number 3] (5 + 4)
          [Lace.Instruction.loadConstant 0, .loadConstant 1, .sub] 0 ⟨[], [⟨[]⟩], [], []⟩
        = some (.ok .none ⟨[Lace.Value.number 4], [], [0, 1, 2], []⟩) from by decide] at h3
      simpa using h3.symm
    rw [this]
  · obtain ⟨consts, code, hcomp, hrun⟩ :=
      c9_operand_order.2.2.2 7 2 (by decide) (by decide)
    have hc : consts = [Lace.Value.number 7, Lace.Value.number 2] ∧
        code = [Lace.Instruction.loadConstant 0, .loadConstant 1, .div] := by
      have : Lace.compileProgram
          (.cons (.binary (.value (.number 7)) (.value (.number 2)) .opDiv) .nil)
        = some ([Lace.Value.number 7, Lace.Value.number 2],
            [Lace.Instruction.loadConstant 0, .loadConstant 1, .div]) := by decide
      rw [this] at hcomp
      simpa [And.comm] using hcomp.symm
    obtain ⟨st', h1, h2⟩ := hrun 5
    obtain ⟨rfl, rfl⟩ := hc
    rw [show (9 : Nat) = 5 + 4 from rfl, h1]
    have : st' = ⟨[.number 3], [], [0, 1, 2], []⟩ := by
      have h3 := h1
      rw [show Lace.runL [Lace.Value.number 7, Lace.Value.number 2] (5 + 4)
          [Lace.Instruction.loadConstant 0, .loadConstant 1, .div] 0 ⟨[], [⟨[]⟩], [], []⟩
        = some (.ok .none ⟨[Lace.Value.number 3], [], [0, 1, 2], []⟩) from by decide] at h3
      simpa using h3.symm
    rw [this]

/-- C2.  For every compiled while loop (`compile_node`, `lacec.rs`
lines 166–179; VM jumps, `lace/src/vm.rs`): the lowering is condition
code `C`, a backpatched `JumpF` to one past the loop, body code `B`, and
a `Jump` back to the condition.  Given that the condition segment
evaluates (pushing `cv st` and executing only instruction indices inside
the condition region, hypothesis functions `cf`/`ct`) and the body
segment runs through (hypothesis `bf`), then from the loop start: if the
condition value is falsy, control reaches the exit (one past the loop)
and no instruction at or beyond the body start executes — the body runs
zero times; if it is truthy, control runs the body and returns exactly to
the loop start to re-test the condition — the body never falls through
past the loop, and the only exit is a falsy condition. -/
theorem c2_while_loop_control
    (consts : List Lace.Value) (chunk : List Lace.Instruction)
    (cond : Lace.Node) (body : Lace.NodeList)
    (consts' : List Lace.Value) (code : List Lace.Instruction)
    (h : Lace.compileNode consts chunk (.whileLoop cond body) = some (consts', code)) :
    ∃ C B c1,
      Lace.compileExpression consts chunk cond = some (c1, chunk ++ C) ∧
      code = chunk ++ C
          ++ [.jumpF (chunk.length + C.length + 1 + B.length + 1)]
          ++ B ++ [.jump chunk.length] ∧
      ∀ (cv : Lace.St → Lace.Value) (ct : Lace.St → List Nat)
        (cf : Lace.St → Lace.St) (bf : Lace.St → Lace.St),
        (∀ st, Lace.Reaches consts' code chunk.length st
            (chunk.length + C.length) (cf st)) →
        (∀ st, (cf st).stack = cv st :: st.stack) →
        (∀ st, (cf st).trace = st.trace ++ ct st) →
        (∀ st, ∀ i ∈ ct st, chunk.length ≤ i ∧ i < chunk.length + C.length) →
        (∀ st, Lace.Reaches consts' code (chunk.length + C.length + 1) st
            (chunk.length + C.length + 1 + B.length) (bf st)) →
        ∀ st : Lace.St,
          ((cv st).istruthy = some Bool.false →
            Lace.Reaches consts' code chunk.length st
              (chunk.length + C.length + 1 + B.length + 1)
              { cf st with
                stack := st.stack,
                trace := st.trace ++ ct st ++ [chunk.length + C.length] } ∧
            ∀ i ∈ ct st ++ [chunk.length + C.length],
              i < chunk.length + C.length + 1) ∧
          ((cv st).istruthy = some Bool.true →
            Lace.Reaches consts' code chunk.length st chunk.length
              { bf { cf st with
                     stack := st.stack,
                     trace := st.trace ++ ct st ++ [chunk.length + C.length] } with
                trace := (bf { cf st with
                     stack := st.stack,
                     trace := st.trace ++ ct st ++ [chunk.length + C.length] }).trace
                  ++ [chunk.length + C.length + 1 + B.length] }) := by
  obtain ⟨c1, C, B, hc, hb, hcode⟩ := Lace.compileNode_while_shape h
  refine ⟨C, B, c1, hc, hcode, ?_⟩
  intro cv ct cf bf Hc Hstack Htrace Hct Hb st
  have hJF : code[chunk.length + C.length]?
      = some (.jumpF (chunk.length + C.length + 1 + B.length + 1)) := by
    rw [hcode]
    rw [show chunk ++ C
          ++ [Lace.Instruction.jumpF (chunk.length + C.length + 1 + B.length + 1)]
          ++ B ++ [Lace.Instruction.jump chunk.length]
        = (chunk ++ C)
          ++ Lace.Instruction.jumpF (chunk.length + C.length + 1 + B.length + 1)
            :: (B ++ [Lace.Instruction.jump chunk.length]) by simp]
    rw [show chunk.length + C.length = (chunk ++ C).length by simp]
    exact Lace.getElem?_append_len _ _ _
  have hJ : code[chunk.length + C.length + 1 + B.length]?
      = some (.jump chunk.length) := by
    have h0 := Lace.getElem?_append_len
      ((chunk ++ C)
        ++ Lace.Instruction.jumpF (chunk.length + C.length + 1 + B.length + 1) :: B)
      (Lace.Instruction.jump chunk.length) []
    rw [show ((chunk ++ C)
          ++ Lace.Instruction.jumpF (chunk.length + C.length + 1 + B.length + 1)
            :: B).length
        = chunk.length + C.length + 1 + B.length by simp; omega] at h0
    rw [hcode]
    rw [show chunk ++ C
          ++ [Lace.Instruction.jumpF (chunk.length + C.length + 1 + B.length + 1)]
          ++ B ++ [Lace.Instruction.jump chunk.length]
        = ((chunk ++ C)
            ++ Lace.Instruction.jumpF (chunk.length + C.length + 1 + B.length + 1)
              :: B)
          ++ Lace.Instruction.jump chunk.length :: [] by simp]
    exact h0
  have hst2 : ({ cf st with
        stack := st.stack,
        trace := (cf st).trace ++ [chunk.length + C.length] } : Lace.St)
      = { cf st with
          stack := st.stack,
          trace := st.trace ++ ct st ++ [chunk.length + C.length] } := by
    rw [Htrace st]
  constructor
  · intro hfalse
    constructor
    · have step2 : Lace.Reaches consts' code (chunk.length + C.length) (cf st)
          (chunk.length + C.length + 1 + B.length + 1)
          { cf st with
            stack := st.stack,
            trace := st.trace ++ ct st ++ [chunk.length + C.length] } := by
        rw [← hst2]
        exact Lace.reaches_of_step fun fuel =>
          Lace.step_jumpF_false hJF (Hstack st) hfalse fuel
      exact (Hc st).trans step2
    · intro i hi
      rcases List.mem_append.mp hi with hi | hi
      · exact (Hct st i hi).2.trans (by omega)
      · have : i = chunk.length + C.length := by simpa using hi
        omega
  · intro htrue
    have step2 : Lace.Reaches consts' code (chunk.length + C.length) (cf st)
        (chunk.length + C.length + 1)
        { cf st with
          stack := st.stack,
          trace := st.trace ++ ct st ++ [chunk.length + C.length] } := by
      rw [← hst2]
      exact Lace.reaches_of_step fun fuel =>
        Lace.step_jumpF_true hJF (Hstack st) htrue fuel
    have step3 := Hb { cf st with
      stack := st.stack,
      trace := st.trace ++ ct st ++ [chunk.length + C.length] }
    have step4 : Lace.Reaches consts' code (chunk.length + C.length + 1 + B.length)
        (bf { cf st with
              stack := st.stack,
              trace := st.trace ++ ct st ++ [chunk.length + C.length] })
        chunk.length
        { bf { cf st with
               stack := st.stack,
               trace := st.trace ++ ct st ++ [chunk.length + C.length] } with
          trace := (bf { cf st with
               stack := st.stack,
               trace := st.trace ++ ct st ++ [chunk.length + C.length] }).trace
            ++ [chunk.length + C.length + 1 + B.length] } :=
      Lace.reaches_of_step fun fuel => Lace.step_jump hJ fuel
    exact ((Hc st).trans step2).trans (step3.trans step4)

/-- Closed witness for C2: the loop `while false { writeln!(); }`
compiles to `[LoadConstant 0, JumpF 4, CallPrimitiveFunction 0 1,
Jump 0]` and, per the theorem, a run from the loop start reaches the
exit with the body never executed: the final trace is `[0, 1]` (condition
and exit jump only) and the output is empty — the `writeln!` in the body
never fired. -/
theorem c2_while_loop_control_witness :
    ∃ m, Lace.runL [Lace.Value.false, .identifier "writeln!"] m
        [.loadConstant 0, .jumpF 4, .callPrimitiveFunction 0 1, .jump 0] 0
        ⟨[], [⟨[]⟩], [], []⟩
      = some (.ok .none ⟨[], [], [0, 1], []⟩) := by
  have hcomp : Lace.compileNode [] []
      (.whileLoop (.value .false) (.cons (.primitiveFunctionCall "writeln!" .nil) .nil))
      = some ([Lace.Value.false, .identifier "writeln!"],
          [.loadConstant 0, .jumpF 4, .callPrimitiveFunction 0 1, .jump 0]) := by decide
  obtain ⟨C, B, c1, hc, hcode, main⟩ := c2_while_loop_control [] []
    (.value .false) (.cons (.primitiveFunctionCall "writeln!" .nil) .nil)
    [Lace.Value.false, .identifier "writeln!"]
    [.loadConstant 0, .jumpF 4, .callPrimitiveFunction 0 1, .jump 0] hcomp
  have hCc : ([Lace.Value.false] : List Lace.Value) = c1
      ∧ ([Lace.Instruction.loadConstant 0] : List Lace.Instruction) = [] ++ C := by
    have h0 : Lace.compileExpression [] [] (.value Lace.Value.false)
        = some ([Lace.Value.false], [Lace.Instruction.loadConstant 0]) := by decide
    simpa using h0.symm.trans hc
  have hC : C = [Lace.Instruction.loadConstant 0] := by simpa using hCc.2.symm
  subst hC
  have hB : B = [Lace.Instruction.callPrimitiveFunction 0 1] := by
    rcases B with _ | ⟨b, B2⟩
    · have hlen := congrArg List.length hcode
      simp at hlen
    · rcases B2 with _ | ⟨b2, B3⟩
      · have hb2 : Lace.Instruction.callPrimitiveFunction 0 1 = b := by
          have h2 := congrArg (fun l => l[2]?) hcode
          simpa using h2
        rw [← hb2]
      · have hlen := congrArg List.length hcode
        simp at hlen
  subst hB
  have hmain := main (fun _ => Lace.Value.false) (fun _ => [0])
      (fun st => { st with
        stack := Lace.Value.false :: st.stack, trace := st.trace ++ [0] })
      (fun st => { st with
        trace := st.trace ++ [2], output := st.output ++ [[]] })
      (fun st => Lace.reaches_of_step fun fuel =>
        Lace.step_loadConstant (by rfl) (by rfl) fuel)
      (fun st => rfl) (fun st => rfl)
      (fun st i hi => by
        simp only [List.mem_singleton] at hi
        subst hi
        exact ⟨by simp, by simp⟩)
      (fun st => Lace.reaches_of_step fun fuel => by
        simp [Lace.runL, popN, Lace.Value.extract])
  obtain ⟨k, hk⟩ := ((hmain ⟨[], [⟨[]⟩], [], []⟩).1 (by decide)).1
  refine ⟨1 + k, ?_⟩
  show Lace.runL [Lace.Value.false, .identifier "writeln!"] (1 + k)
      [.loadConstant 0, .jumpF 4, .callPrimitiveFunction 0 1, .jump 0]
      ([] : List Lace.Instruction).length ⟨[], [⟨[]⟩], [], []⟩
    = some (.ok .none ⟨[], [], [0, 1], []⟩)
  rw [hk 1]
  decide
